import Mathlib

/-!
# mkbox: sandbox construction sequence

A shallow embedding of `src/bin/mkbox/mkbox.c`.  The program is a straight
sequence of system calls driven by the `getopt` loop of `main`.  The kernel is
an oracle that supplies the result of each call; the process is a state-passing
program that records every call it issues, in order, together with its result.
-/

namespace Mkbox

/-! ## Constants of the Linux headers used by the program -/

def CLONE_NEWNS : Nat := 0x00020000
def CLONE_NEWUTS : Nat := 0x04000000
def CLONE_NEWIPC : Nat := 0x08000000
def CLONE_NEWUSER : Nat := 0x10000000
def CLONE_NEWNET : Nat := 0x40000000

def MS_RDONLY : Nat := 1
def MS_NOSUID : Nat := 2
def MS_NOEXEC : Nat := 8
def MS_REMOUNT : Nat := 32
def MS_NOATIME : Nat := 1024
def MS_BIND : Nat := 4096
def MS_REC : Nat := 16384
def MS_PRIVATE : Nat := 262144

def MNT_DETACH : Nat := 2

def O_WRONLY : Nat := 1
def O_CREAT : Nat := 64
def O_TRUNC : Nat := 512

def S_IFMT : Nat := 61440
def S_IFDIR : Nat := 16384
def S_IFREG : Nat := 32768

def _LINUX_CAPABILITY_VERSION_3 : Nat := 0x20080522
def _LINUX_CAPABILITY_U32S_3 : Nat := 2

/-- The macro `S_ISDIR` of `sys/stat.h`. -/
def S_ISDIR (st_mode : Nat) : Bool := st_mode &&& S_IFMT == S_IFDIR

/-- The macro `S_ISREG` of `sys/stat.h`. -/
def S_ISREG (st_mode : Nat) : Bool := st_mode &&& S_IFMT == S_IFREG

/-! ## System calls, the kernel, the process -/

/-- One element of `struct __user_cap_data_struct data[]`. -/
structure CapData where
  effective : Nat
  permitted : Nat
  inheritable : Nat
deriving DecidableEq, Repr

/-- The system and library calls `mkbox.c` issues, with their arguments.
`none` in an `Option String` argument is the C `NULL`. -/
inductive Syscall where
  | getuid
  | getgid
  | unshare (flags : Nat)
  | mount (source target : String) (fstype : Option String) (flags : Nat)
      (data : Option String)
  | chdir (path : String)
  | stat (path : String)
  | lstat (path : String)
  | mkdir (path : String) (mode : Nat)
  | open_ (path : String) (flags : Nat) (mode : Option Nat)
  | write (fd : Int) (buf : String) (count : Nat)
  | close (fd : Int)
  | setresuid (ruid euid suid : Nat)
  | setresgid (rgid egid sgid : Nat)
  | sleep (seconds : Nat)
  | pivot_root (new_root put_old : String)
  | umount2 (target : String) (flags : Nat)
  | rmdir (path : String)
  | capset (version : Nat) (pid : Int) (data : List CapData)
  | execv (path : Option String) (argv : List String)
deriving DecidableEq, Repr

/-- A call that was issued, with the value it returned. -/
structure Call where
  sys : Syscall
  res : Int
deriving DecidableEq, Repr

/-- The kernel as seen by the process: the real IDs of the invoking user, the
value returned by the `n`-th call the process issues (counting from 0), and the
`st_mode` that a `stat` issued as `n`-th call stores in its buffer. -/
structure Kernel where
  uid : Nat
  gid : Nat
  ret : Nat → Syscall → Int
  st_mode : Nat → Nat

/-- The local variables of `main` that the option loop changes, the calls
issued so far and what was printed on `stderr`. -/
structure Proc where
  child_dir : Option String
  binary : Option String
  verbose : Bool
  root_set : Bool
  trace : List Call
  err : List String
deriving DecidableEq, Repr

/-- How a run ends. `errorf` and `checkfail` are the two paths to `exit(-1)`:
the macro `errorf` with its message, and `checkreturn` with the name of the
failed function and its result. `exec` is `execv` taking over the process. -/
inductive Outcome where
  | errorf (msg : String)
  | checkfail (name : String) (res : Int)
  | exec
deriving DecidableEq, Repr

/-- The exit status the parent observes: `exit(-1)` is status 255; after a
successful `execv` the status is the target program's affair. -/
def Outcome.status : Outcome → Option Nat
  | .errorf _ => some 255
  | .checkfail _ _ => some 255
  | .exec => none

/-- Result of running a piece of the program: it went on with a value, or the
process is over. -/
inductive Res (α : Type) where
  | cont (a : α) (p : Proc)
  | halt (o : Outcome) (p : Proc)

/-- The process state a result carries. -/
def Res.proc {α : Type} : Res α → Proc
  | .cont _ p => p
  | .halt _ p => p

/-- The outcome, when the process is over. -/
def Res.outcome {α : Type} : Res α → Option Outcome
  | .cont _ _ => none
  | .halt o _ => some o

/-- Programs: state-passing with early exit. -/
def M (α : Type) : Type := Proc → Res α

instance : Monad M where
  pure a := fun p => .cont a p
  bind x f := fun p =>
    match x p with
    | .cont a q => f a q
    | .halt o q => .halt o q

/-- Record a call and its result at the end of the trace. -/
def Proc.push (p : Proc) (s : Syscall) (res : Int) : Proc :=
  { p with trace := p.trace ++ [⟨s, res⟩] }

/-- Issue a call: the kernel supplies the result, the call is recorded. -/
def sys (K : Kernel) (s : Syscall) : M Int := fun p =>
  .cont (K.ret p.trace.length s) (p.push s (K.ret p.trace.length s))

/-- The function `checkreturn`: a negative result ends the process. -/
def checkreturn (res : Int) (name : String) : M Int := fun p =>
  if res ≥ 0 then .cont res p
  else .halt (.checkfail name res) p

/-- The macro `ok(fname, args)`. -/
def ok (K : Kernel) (name : String) (s : Syscall) : M Int := do
  let res ← sys K s
  checkreturn res name

/-- The macro `errorf`. -/
def errorf {α : Type} (msg : String) : M α := fun p => .halt (.errorf msg) p

/-- Printing with `fprintf(stderr, ...)`. -/
def eprint (msg : String) : M Unit := fun p =>
  .cont () { p with err := p.err ++ [msg] }

/-- Calls `stat(path, &buf)` and yields the result and `buf.st_mode`. -/
def stat (K : Kernel) (path : String) : M (Int × Nat) := fun p =>
  .cont (K.ret p.trace.length (.stat path), K.st_mode p.trace.length)
    (p.push (.stat path) (K.ret p.trace.length (.stat path)))

/-- The call `getuid()`; it cannot fail. -/
def getuid (K : Kernel) : M Nat := fun p =>
  .cont K.uid (p.push .getuid K.uid)

/-- The call `getgid()`; it cannot fail. -/
def getgid (K : Kernel) : M Nat := fun p =>
  .cont K.gid (p.push .getgid K.gid)

/-! Reading and writing the local variables of `main`. -/

def getRootSet : M Bool := fun p => .cont p.root_set p
def getChildDir : M (Option String) := fun p => .cont p.child_dir p
def getBinary : M (Option String) := fun p => .cont p.binary p
def getVerbose : M Bool := fun p => .cont p.verbose p
def setVerbose (b : Bool) : M Unit := fun p => .cont () { p with verbose := b }
def setRootSet : M Unit := fun p => .cont () { p with root_set := true }
def setBinary (s : String) : M Unit := fun p => .cont () { p with binary := some s }
def setChildDir (s : String) : M Unit := fun p => .cont () { p with child_dir := some s }

/-! ## C library pieces: `strchr`, `sscanf("%d")`, `sprintf("%d")` -/

/-- The characters before the first `=` of a string and those after it; `none`
when `strchr(optarg, '=')` is `NULL`. -/
def splitChars : List Char → Option (List Char × List Char)
  | [] => none
  | c :: cs =>
      if c = '=' then some ([], cs)
      else (splitChars cs).map fun sd => (c :: sd.1, sd.2)

/-- The split `main` does with `strchr(optarg, '=')`: `none` when there is no
`=`, else the text before the first `=` (`src`) and the text after it (`dst`). -/
def splitEq (optarg : String) : Option (String × String) :=
  (splitChars optarg.data).map fun sd => (String.mk sd.1, String.mk sd.2)

/-- The C `isspace` in the "C" locale. -/
def isspace (c : Char) : Bool :=
  c == ' ' || (9 ≤ c.toNat && c.toNat ≤ 13)

/-- Value of a run of decimal digits. -/
def digitsVal (ds : List Char) : Nat :=
  ds.foldl (fun acc c => 10 * acc + (c.toNat - 48)) 0

/-- A 32-bit pattern read as a C `int`. -/
def toInt32 (n : Int) : Int :=
  if n % 4294967296 < 2147483648 then n % 4294967296 else n % 4294967296 - 4294967296

/-- A C `int` converted to `uid_t` / `gid_t` (32 bits, unsigned). -/
def toUInt32 (n : Int) : Nat := (n % 4294967296).toNat

/-- The saturation of `strtol`: a number outside the range of `long` becomes
`LONG_MIN` or `LONG_MAX`. -/
def clampLong (v : Int) : Int :=
  if v < -9223372036854775808 then -9223372036854775808
  else if 9223372036854775807 < v then 9223372036854775807
  else v

/-- The conversion `sscanf(optarg, "%d", &n)`: skip white space, take an
optional sign and at least one digit; `none` when the return value is not 1.
As in glibc the number is read as a `long`, saturated at `LONG_MIN` and
`LONG_MAX`, and its low 32 bits are stored in the `int`. -/
def sscanf_d (optarg : String) : Option Int :=
  let cs := optarg.data.dropWhile isspace
  let (neg, ds) : Bool × List Char :=
    match cs with
    | '-' :: r => (true, r)
    | '+' :: r => (false, r)
    | r => (false, r)
  let d := ds.takeWhile Char.isDigit
  if d.isEmpty then none
  else some (toInt32 (clampLong (if neg then - (digitsVal d : Int) else (digitsVal d : Int))))

/-- The conversion `%d` of `sprintf` applied to a C `int`. -/
def fmt_d (i : Int) : String :=
  if i < 0 then "-" ++ Nat.repr i.natAbs else Nat.repr i.natAbs

/-- The text `sprintf(buf, "%d %d 1\n", newid, id)` produces; `id` has type
`uid_t` (or `gid_t`) and is printed with `%d`, that is as an `int`. -/
def mapRecord (newid : Int) (id : Nat) : String :=
  fmt_d newid ++ " " ++ fmt_d (toInt32 id) ++ " 1\n"

/-! ## The program -/

/-- What `getopt(argc, argv, "+b:B:d:D:g:qr:s:t:u:Z")` returns on one call
of the loop: an option letter with its `optarg`, or `?` for anything else. -/
inductive Opt where
  | b (optarg : String)
  | B (optarg : String)
  | d (optarg : String)
  | D (optarg : String)
  | g (optarg : String)
  | q
  | r (optarg : String)
  | s (optarg : String)
  | t (optarg : String)
  | u (optarg : String)
  | Z
  | unknown
deriving DecidableEq, Repr

/-- The function `dropcaps`. -/
def dropcaps (K : Kernel) : M Int :=
  sys K (.capset _LINUX_CAPABILITY_VERSION_3 0
    (List.replicate _LINUX_CAPABILITY_U32S_3 ⟨0, 0, 0⟩))

/-- The body of the `switch (opt)` in `main`. -/
def step (K : Kernel) (uid gid : Nat) : Opt → M Unit
  | .q => setVerbose false
  | .s optarg => do
      let _ ← sys K (.mount "none" "/" none (MS_REC ||| MS_PRIVATE) none)
      let _ ← ok K "mount" (.mount optarg optarg none (MS_BIND ||| MS_NOSUID) none)
      let _ ← ok K "chdir" (.chdir optarg)
      setRootSet
  | .B optarg => setBinary optarg
  | .b optarg =>
      match splitEq optarg with
      | none => errorf ("argument must have \x27=\x27: " ++ optarg)
      | some (src, dst) => do
          if (← getVerbose) then
            eprint ("mount: " ++ src ++ " => " ++ dst ++ "\n")
          let (res, st_mode) ← stat K src
          let _ ← checkreturn res "stat"
          if S_ISDIR st_mode then
            if (← sys K (.lstat dst)) < 0 then
              let _ ← ok K "mkdir" (.mkdir dst 0o755)
            let _ ← ok K "mount" (.mount src dst none (MS_REC ||| MS_BIND) none)
          else
            let fd ← ok K "open" (.open_ dst (O_WRONLY ||| O_CREAT) (some 0o666))
            let _ ← ok K "close" (.close fd)
            let _ ← ok K "mount" (.mount src dst none MS_BIND none)
  | .t optarg => do
      if (← getVerbose) then
        eprint ("tmp: " ++ optarg ++ "\n")
      if (← sys K (.lstat optarg)) < 0 then
        let _ ← ok K "mkdir" (.mkdir optarg 0o755)
      let _ ← ok K "mount" (.mount "sandbox-dev" optarg (some "tmpfs")
        (MS_NOSUID ||| MS_NOEXEC ||| MS_NOATIME) (some "size=64k,nr_inodes=16,mode=755"))
  | .r optarg => do
      let _ ← ok K "mount" (.mount optarg optarg none
        (MS_RDONLY ||| MS_NOSUID ||| MS_REMOUNT ||| MS_NOATIME ||| MS_BIND) none)
  | .u optarg =>
      match sscanf_d optarg with
      | none => errorf ("could not parse " ++ optarg)
      | some newuid => do
          let buf := mapRecord newuid uid
          let fd ← ok K "open" (.open_ "/proc/self/uid_map" O_WRONLY none)
          let _ ← ok K "write" (.write fd buf buf.length)
          let _ ← ok K "close" (.close fd)
          let _ ← ok K "setresuid"
            (.setresuid (toUInt32 newuid) (toUInt32 newuid) (toUInt32 newuid))
  | .g optarg =>
      match sscanf_d optarg with
      | none => errorf ("could not parse " ++ optarg)
      | some newgid => do
          let buf := mapRecord newgid gid
          let fd ← ok K "open" (.open_ "/proc/self/gid_map" O_WRONLY none)
          let _ ← ok K "write" (.write fd buf buf.length)
          let _ ← ok K "close" (.close fd)
          let _ ← ok K "setresgid"
            (.setresgid (toUInt32 newgid) (toUInt32 newgid) (toUInt32 newgid))
  | .d optarg => setChildDir optarg
  | .D optarg => do
      let _ ← ok K "mkdir" (.mkdir optarg 0o755)
  | .Z => do
      let _ ← sys K (.sleep 100)
  | .unknown => errorf "option ? unknown"

/-- The loop `while ((opt = getopt(...)) != -1) switch (opt) ...`. -/
def runOpts (K : Kernel) (uid gid : Nat) : List Opt → M Unit
  | [] => pure ()
  | opt :: rest => do
      step K uid gid opt
      runOpts K uid gid rest

/-- The variable `unshare_flags` of `main`. -/
def unshare_flags : Nat :=
  CLONE_NEWNS ||| CLONE_NEWUTS ||| CLONE_NEWIPC ||| CLONE_NEWUSER ||| CLONE_NEWNET

/-- The head of `main` up to the end of the option loop: `getuid`, `getgid`,
`unshare`, then the options in turn. -/
def assemble (K : Kernel) (opts : List Opt) : M Unit := do
  let uid ← getuid K
  let gid ← getgid K
  let _ ← ok K "unshare" (.unshare unshare_flags)
  runOpts K uid gid opts

/-- The tail of `main` after the option loop: the `-s` check, the root
pivot, the final `chdir`, `dropcaps` and `execv`. -/
def finish (K : Kernel) (rest : List String) : M Unit := do
  if !(← getRootSet) then
    errorf "-s option is mandatory"
  let _ ← ok K "mkdir" (.mkdir ".oldroot" 0o755)
  let _ ← ok K "pivot_root" (.pivot_root "." ".oldroot")
  let _ ← ok K "umount2" (.umount2 ".oldroot" MNT_DETACH)
  let _ ← ok K "rmdir" (.rmdir ".oldroot")
  let _ ← ok K "mount" (.mount "/" "/" none
    (MS_RDONLY ||| MS_NOSUID ||| MS_REMOUNT ||| MS_NOATIME ||| MS_BIND ||| MS_RDONLY) none)
  match (← getChildDir) with
  | some child_dir => do let _ ← ok K "chdir" (.chdir child_dir)
  | none => pure ()
  let res ← dropcaps K
  let _ ← checkreturn res "dropcaps"
  let binary := match (← getBinary) with
    | none => rest.head?
    | some binary => some binary
  let _ ← ok K "execv" (.execv binary rest)

/-- The function `main`: its head `assemble`, then its tail `finish`. `opts`
are the successive results of `getopt`, `rest` is `argv + optind`, the
arguments left after the options. -/
def main (K : Kernel) (opts : List Opt) (rest : List String) : M Unit := do
  assemble K opts
  finish K rest

/-- The state `main` starts in: `child_dir = NULL`, `binary = NULL`,
`verbose = 1`, `root_set = 0`, nothing issued, nothing printed. -/
def Proc.init : Proc :=
  { child_dir := none, binary := none, verbose := true, root_set := false,
    trace := [], err := [] }

/-- A whole run of the program: how it ends and the final process state. When
`main` gets past `execv` the target program has taken over. -/
def run (K : Kernel) (opts : List Opt) (rest : List String) : Outcome × Proc :=
  match main K opts rest Proc.init with
  | .cont _ p => (.exec, p)
  | .halt o p => (o, p)

/-- The calls a run issued, in order. -/
def calls (K : Kernel) (opts : List Opt) (rest : List String) : List Syscall :=
  (run K opts rest).2.trace.map Call.sys

/-- A kernel in which every call returns 0 and every `stat` reports `mode`. -/
def Kernel.allOk (uid gid mode : Nat) : Kernel :=
  { uid := uid, gid := gid, ret := fun _ _ => 0, st_mode := fun _ => mode }

/-- A kernel in which the `k`-th call of the run (counting from 0) returns -1
and every other call returns 0. -/
def Kernel.failAt (uid gid mode k : Nat) : Kernel :=
  { uid := uid, gid := gid, ret := fun n _ => if n = k then -1 else 0,
    st_mode := fun _ => mode }

/-- The action list of the end-to-end scenario. -/
def scenario : List Opt :=
  [.s "/srv/sbx", .b "/usr=/srv/sbx/usr", .t "/srv/sbx/tmp", .u "1000", .g "1000", .d "/"]

/-! ## The calls of each part of the program, as lists -/

/-- The calls issued when the calls of a list are made one after another
through `ok`, the first of them as `n`-th call of the run: each call is issued
only if all the calls before it succeeded. -/
def checked (K : Kernel) (n : Nat) : List Syscall → List Call
  | [] => []
  | s :: l => ⟨s, K.ret n s⟩ :: (if 0 ≤ K.ret n s then checked K (n + 1) l else [])

/-- The calls one action issues when its first call is the `n`-th call of the
run, read off the `case` of the action in `main`. -/
def actionCalls (K : Kernel) (uid gid : Nat) (n : Nat) : Opt → List Call
  | .s optarg =>
      ⟨.mount "none" "/" none (MS_REC ||| MS_PRIVATE) none,
        K.ret n (.mount "none" "/" none (MS_REC ||| MS_PRIVATE) none)⟩ ::
      checked K (n + 1)
        [.mount optarg optarg none (MS_BIND ||| MS_NOSUID) none, .chdir optarg]
  | .b optarg =>
      match splitEq optarg with
      | none => []
      | some (src, dst) =>
          ⟨.stat src, K.ret n (.stat src)⟩ ::
          (if 0 ≤ K.ret n (.stat src) then
             if S_ISDIR (K.st_mode n) then
               ⟨.lstat dst, K.ret (n + 1) (.lstat dst)⟩ ::
               checked K (n + 2)
                 ((if K.ret (n + 1) (.lstat dst) < 0 then [.mkdir dst 0o755] else []) ++
                  [.mount src dst none (MS_REC ||| MS_BIND) none])
             else
               checked K (n + 1)
                 [.open_ dst (O_WRONLY ||| O_CREAT) (some 0o666),
                  .close (K.ret (n + 1) (.open_ dst (O_WRONLY ||| O_CREAT) (some 0o666))),
                  .mount src dst none MS_BIND none]
           else [])
  | .t optarg =>
      ⟨.lstat optarg, K.ret n (.lstat optarg)⟩ ::
      checked K (n + 1)
        ((if K.ret n (.lstat optarg) < 0 then [.mkdir optarg 0o755] else []) ++
         [.mount "sandbox-dev" optarg (some "tmpfs")
            (MS_NOSUID ||| MS_NOEXEC ||| MS_NOATIME) (some "size=64k,nr_inodes=16,mode=755")])
  | .r optarg =>
      checked K n [.mount optarg optarg none
        (MS_RDONLY ||| MS_NOSUID ||| MS_REMOUNT ||| MS_NOATIME ||| MS_BIND) none]
  | .u optarg =>
      match sscanf_d optarg with
      | none => []
      | some newuid =>
          checked K n
            [.open_ "/proc/self/uid_map" O_WRONLY none,
             .write (K.ret n (.open_ "/proc/self/uid_map" O_WRONLY none))
               (mapRecord newuid uid) (mapRecord newuid uid).length,
             .close (K.ret n (.open_ "/proc/self/uid_map" O_WRONLY none)),
             .setresuid (toUInt32 newuid) (toUInt32 newuid) (toUInt32 newuid)]
  | .g optarg =>
      match sscanf_d optarg with
      | none => []
      | some newgid =>
          checked K n
            [.open_ "/proc/self/gid_map" O_WRONLY none,
             .write (K.ret n (.open_ "/proc/self/gid_map" O_WRONLY none))
               (mapRecord newgid gid) (mapRecord newgid gid).length,
             .close (K.ret n (.open_ "/proc/self/gid_map" O_WRONLY none)),
             .setresgid (toUInt32 newgid) (toUInt32 newgid) (toUInt32 newgid)]
  | .D optarg => checked K n [.mkdir optarg 0o755]
  | .Z => [⟨.sleep 100, K.ret n (.sleep 100)⟩]
  | .q => []
  | .B _ => []
  | .d _ => []
  | .unknown => []

/-- The calls of all the actions of a list, one action after the other in list
order, the first call being the `n`-th call of the run. -/
def concatCalls (K : Kernel) (uid gid : Nat) (n : Nat) : List Opt → List Call
  | [] => []
  | a :: l =>
      actionCalls K uid gid n a ++
        concatCalls K uid gid (n + (actionCalls K uid gid n a).length) l

/-- The five calls of the root pivot, lines 202 to 210 of `mkbox.c`. -/
def finalizeCalls : List Syscall :=
  [.mkdir ".oldroot" 0o755,
   .pivot_root "." ".oldroot",
   .umount2 ".oldroot" MNT_DETACH,
   .rmdir ".oldroot",
   .mount "/" "/" none
     (MS_RDONLY ||| MS_NOSUID ||| MS_REMOUNT ||| MS_NOATIME ||| MS_BIND ||| MS_RDONLY) none]

/-- The `capset` call of `dropcaps`: version 3 header, pid 0, all words zero. -/
def capsetCall : Syscall :=
  .capset _LINUX_CAPABILITY_VERSION_3 0 (List.replicate _LINUX_CAPABILITY_U32S_3 ⟨0, 0, 0⟩)

/-- The calls after the root pivot, lines 212 to 220 of `mkbox.c`: the `chdir`
when `child_dir` is set, `capset`, `execv`. -/
def handoffCalls (child_dir binary : Option String) (rest : List String) : List Syscall :=
  (match child_dir with
   | some dir => [.chdir dir]
   | none => []) ++
  [capsetCall,
   .execv (match binary with
           | none => rest.head?
           | some b => some b) rest]

/-- The state of the process once `getuid`, `getgid` and `unshare` are issued. -/
def afterUnshare (K : Kernel) : Proc :=
  ((Proc.init.push .getuid K.uid).push .getgid K.gid).push (.unshare unshare_flags)
    (K.ret 2 (.unshare unshare_flags))

/-- Is the action a `-s`. -/
def Opt.isRoot : Opt → Bool
  | .s _ => true
  | _ => false

/-- The value of `child_dir` after an action. -/
def Opt.childDir (dir : Option String) : Opt → Option String
  | .d optarg => some optarg
  | _ => dir

/-- The value of `binary` after an action. -/
def Opt.binaryOf (bin : Option String) : Opt → Option String
  | .B optarg => some optarg
  | _ => bin

/-- An option that raises no `errorf`: it is a known letter, a `-b` argument
has its `=`, a `-u` or `-g` argument starts with a number. -/
def Opt.wellFormed : Opt → Bool
  | .b optarg => (splitEq optarg).isSome
  | .u optarg => (sscanf_d optarg).isSome
  | .g optarg => (sscanf_d optarg).isSome
  | .unknown => false
  | _ => true

/-- A result that is not the end of the process, or is an `exit(-1)`: through
`errorf`, or through `checkreturn` on the negative result of the call issued
last. -/
def Res.Fatal {α : Type} : Res α → Prop
  | .cont _ _ => True
  | .halt (.errorf _) _ => True
  | .halt (.checkfail _ res) q => res < 0 ∧ q.trace.getLast?.map Call.res = some res
  | .halt .exec _ => False

instance {α : Type} (r : Res α) : Decidable r.Fatal := by
  unfold Res.Fatal
  split <;> infer_instance

/-- The value of `child_dir` after the actions of a list: that of the last
`-d`. -/
def childDirAfter (l : List Opt) (dir : Option String) : Option String :=
  l.foldl (fun acc a => a.childDir acc) dir

/-- The calls that belong to the option loop. -/
def Syscall.inLoop : Syscall → Bool
  | .mount _ _ _ _ _ => true
  | .chdir _ => true
  | .stat _ => true
  | .lstat _ => true
  | .mkdir _ _ => true
  | .open_ _ _ _ => true
  | .write _ _ _ => true
  | .close _ => true
  | .setresuid _ _ _ => true
  | .setresgid _ _ _ => true
  | .sleep _ => true
  | _ => false

/-- A list of calls made one after another through `ok`. -/
def okSeq (K : Kernel) : List (String × Syscall) → M Unit
  | [] => pure ()
  | (name, s) :: l => do
      let _ ← ok K name s
      okSeq K l

/-- The calls of the tail of `main`, each with the name `checkreturn` reports. -/
def finishSeq (child_dir binary : Option String) (rest : List String) :
    List (String × Syscall) :=
  [("mkdir", .mkdir ".oldroot" 0o755),
   ("pivot_root", .pivot_root "." ".oldroot"),
   ("umount2", .umount2 ".oldroot" MNT_DETACH),
   ("rmdir", .rmdir ".oldroot"),
   ("mount", .mount "/" "/" none
     (MS_RDONLY ||| MS_NOSUID ||| MS_REMOUNT ||| MS_NOATIME ||| MS_BIND ||| MS_RDONLY) none)] ++
  (match child_dir with
   | some dir => [("chdir", .chdir dir)]
   | none => []) ++
  [("dropcaps", capsetCall),
   ("execv", .execv (match binary with
                     | none => rest.head?
                     | some b => some b) rest)]

/-- The calls of the handoff: `capset` and `execv`. -/
def Syscall.isHandoff : Syscall → Bool
  | .capset _ _ _ => true
  | .execv _ _ => true
  | _ => false

/-- Is the call a `chdir`. -/
def Syscall.isChdir : Syscall → Bool
  | .chdir _ => true
  | _ => false

/-- What a regular file holds after a successful `open(path, flags, mode)`, as
`open(2)` specifies: an existing file keeps its content unless `O_TRUNC` is
among the flags, a missing file is created empty when `O_CREAT` is among them.
`none` is a missing file. -/
def openContent (flags : Nat) : Option String → Option String
  | some content => if flags &&& O_TRUNC = 0 then some content else some ""
  | none => if flags &&& O_CREAT = 0 then none else some ""

/-- What the regular file at `path` holds after a list of calls none of which
writes to it, when it held `before`: only a successful `open` of `path` can
create or truncate it. -/
def contentAfter (path : String) (before : Option String) : List Call → Option String
  | [] => before
  | c :: l =>
      contentAfter path
        (match c.sys with
         | .open_ p flags _ => if p = path ∧ 0 ≤ c.res then openContent flags before else before
         | _ => before) l

/-- The calls whose result `main` does not pass to `checkreturn`: the `lstat`
probes, `sleep`, the mount that makes the mount tree private in `-s`; and
`getuid` and `getgid`, which cannot fail. -/
def Syscall.unchecked : Syscall → Bool
  | .getuid => true
  | .getgid => true
  | .lstat _ => true
  | .sleep _ => true
  | .mount source target fstype flags data =>
      source == "none" && target == "/" && fstype == none &&
        flags == (MS_REC ||| MS_PRIVATE) && data == none
  | _ => false

/-- A call that did not fail, or whose result is not checked. -/
def Call.settled (c : Call) : Bool :=
  c.sys.unchecked || decide (0 ≤ c.res)

/-- In a list of calls, every call that failed with its result checked is the
last one. -/
def FailLast (l : List Call) : Prop :=
  ∀ pre c post, l = pre ++ c :: post → c.settled = false → post = []

/-! ## Reasoning tools -/

@[simp] theorem bind_apply {α β : Type} (x : M α) (f : α → M β) (p : Proc) :
    (x >>= f) p = match x p with
      | .cont a q => f a q
      | .halt o q => .halt o q := rfl

@[simp] theorem pure_apply {α : Type} (a : α) (p : Proc) :
    (pure a : M α) p = .cont a p := rfl

@[simp] theorem sys_apply (K : Kernel) (s : Syscall) (p : Proc) :
    sys K s p = .cont (K.ret p.trace.length s) (p.push s (K.ret p.trace.length s)) := rfl

@[simp high] theorem ok_bind_apply {β : Type} (K : Kernel) (name : String) (s : Syscall)
    (f : Int → M β) (p : Proc) :
    (ok K name s >>= f) p =
      if 0 ≤ K.ret p.trace.length s then
        f (K.ret p.trace.length s) (p.push s (K.ret p.trace.length s))
      else .halt (.checkfail name (K.ret p.trace.length s))
        (p.push s (K.ret p.trace.length s)) := by
  simp only [ok, bind_apply, sys_apply, checkreturn, ge_iff_le]
  split_ifs <;> rfl

@[simp] theorem ok_apply (K : Kernel) (name : String) (s : Syscall) (p : Proc) :
    ok K name s p =
      if 0 ≤ K.ret p.trace.length s then
        .cont (K.ret p.trace.length s) (p.push s (K.ret p.trace.length s))
      else .halt (.checkfail name (K.ret p.trace.length s))
        (p.push s (K.ret p.trace.length s)) := by
  simp only [ok, bind_apply, sys_apply, checkreturn, ge_iff_le]

@[simp high] theorem checkreturn_bind_apply {β : Type} (res : Int) (name : String)
    (f : Int → M β) (p : Proc) :
    (checkreturn res name >>= f) p =
      if 0 ≤ res then f res p else .halt (.checkfail name res) p := by
  simp only [bind_apply, checkreturn, ge_iff_le]
  split_ifs <;> rfl

@[simp high] theorem ite_bind_apply {α β : Type} (c : Prop) [Decidable c] (x y : M α)
    (f : α → M β) (p : Proc) :
    ((if c then x else y) >>= f) p = if c then (x >>= f) p else (y >>= f) p := by
  split_ifs <;> rfl

@[simp] theorem ite_M_apply {α : Type} (c : Prop) [Decidable c] (x y : M α) (p : Proc) :
    (if c then x else y) p = if c then x p else y p := by
  split_ifs <;> rfl

@[simp] theorem errorf_apply {α : Type} (msg : String) (p : Proc) :
    (errorf msg : M α) p = .halt (.errorf msg) p := rfl

@[simp] theorem eprint_apply (msg : String) (p : Proc) :
    eprint msg p = .cont () { p with err := p.err ++ [msg] } := rfl

@[simp] theorem stat_apply (K : Kernel) (path : String) (p : Proc) :
    stat K path p = .cont (K.ret p.trace.length (.stat path), K.st_mode p.trace.length)
      (p.push (.stat path) (K.ret p.trace.length (.stat path))) := rfl

@[simp] theorem getVerbose_apply (p : Proc) : getVerbose p = .cont p.verbose p := rfl
@[simp] theorem getRootSet_apply (p : Proc) : getRootSet p = .cont p.root_set p := rfl
@[simp] theorem getChildDir_apply (p : Proc) : getChildDir p = .cont p.child_dir p := rfl
@[simp] theorem getBinary_apply (p : Proc) : getBinary p = .cont p.binary p := rfl
@[simp] theorem setVerbose_apply (b : Bool) (p : Proc) :
    setVerbose b p = .cont () { p with verbose := b } := rfl
@[simp] theorem setRootSet_apply (p : Proc) :
    setRootSet p = .cont () { p with root_set := true } := rfl
@[simp] theorem setBinary_apply (s : String) (p : Proc) :
    setBinary s p = .cont () { p with binary := some s } := rfl
@[simp] theorem setChildDir_apply (s : String) (p : Proc) :
    setChildDir s p = .cont () { p with child_dir := some s } := rfl

@[simp] theorem push_trace (p : Proc) (s : Syscall) (r : Int) :
    (p.push s r).trace = p.trace ++ [⟨s, r⟩] := rfl
@[simp] theorem push_root_set (p : Proc) (s : Syscall) (r : Int) :
    (p.push s r).root_set = p.root_set := rfl
@[simp] theorem push_child_dir (p : Proc) (s : Syscall) (r : Int) :
    (p.push s r).child_dir = p.child_dir := rfl
@[simp] theorem push_binary (p : Proc) (s : Syscall) (r : Int) :
    (p.push s r).binary = p.binary := rfl
@[simp] theorem push_verbose (p : Proc) (s : Syscall) (r : Int) :
    (p.push s r).verbose = p.verbose := rfl

@[simp] theorem proc_cont {α : Type} (a : α) (p : Proc) : (Res.cont a p).proc = p := rfl
@[simp] theorem proc_halt {α : Type} (o : Outcome) (p : Proc) :
    (Res.halt o p : Res α).proc = p := rfl

/-- Each `case` of the `switch` issues the calls listed by `actionCalls`, after
the calls issued before it. -/
theorem step_calls (K : Kernel) (uid gid : Nat) (a : Opt) (p : Proc) :
    (step K uid gid a p).proc.trace =
      p.trace ++ actionCalls K uid gid p.trace.length a := by
  cases a with
  | b optarg =>
    simp only [step, actionCalls]
    cases hsp : splitEq optarg with
    | none => simp
    | some sd =>
      obtain ⟨src, dst⟩ := sd
      simp [checked]
      split_ifs <;> simp_all [checked]
  | u optarg =>
    simp only [step, actionCalls]
    cases hsc : sscanf_d optarg with
    | none => simp
    | some v => simp [checked]; split_ifs <;> simp
  | g optarg =>
    simp only [step, actionCalls]
    cases hsc : sscanf_d optarg with
    | none => simp
    | some v => simp [checked]; split_ifs <;> simp
  | t optarg =>
    simp [step, actionCalls, checked]
    split_ifs <;> simp_all [checked]
  | _ =>
    simp [step, actionCalls, checked] <;> split_ifs <;> simp

@[simp] theorem outcome_cont {α : Type} (a : α) (p : Proc) :
    (Res.cont a p).outcome = none := rfl
@[simp] theorem outcome_halt {α : Type} (o : Outcome) (p : Proc) :
    (Res.halt o p : Res α).outcome = some o := rfl

/-- A `case` of the `switch` ends the process only by `exit(-1)`. -/
theorem step_fatal (K : Kernel) (uid gid : Nat) (a : Opt) (p : Proc) :
    (step K uid gid a p).Fatal := by
  cases a with
  | b optarg =>
    simp only [step]
    cases hsp : splitEq optarg with
    | none => simp [Res.Fatal]
    | some sd =>
      obtain ⟨src, dst⟩ := sd
      simp
      split_ifs <;> simp_all [Res.Fatal]
  | u optarg =>
    simp only [step]
    cases hsc : sscanf_d optarg with
    | none => simp [Res.Fatal]
    | some v => simp; split_ifs <;> simp_all [Res.Fatal]
  | g optarg =>
    simp only [step]
    cases hsc : sscanf_d optarg with
    | none => simp [Res.Fatal]
    | some v => simp; split_ifs <;> simp_all [Res.Fatal]
  | t optarg =>
    simp [step]
    split_ifs <;> simp_all [Res.Fatal]
  | _ =>
    simp [step, Res.Fatal] <;> split_ifs <;> simp_all [Res.Fatal]

/-- What a `case` of the `switch` that does not exit leaves in `root_set`,
`child_dir` and `binary`. -/
theorem step_locals (K : Kernel) (uid gid : Nat) (a : Opt) (p : Proc)
    (h : (step K uid gid a p).outcome = none) :
    (step K uid gid a p).proc.root_set = (p.root_set || a.isRoot) ∧
    (step K uid gid a p).proc.child_dir = a.childDir p.child_dir ∧
    (step K uid gid a p).proc.binary = a.binaryOf p.binary := by
  revert h
  cases a with
  | b optarg =>
    simp only [step]
    cases hsp : splitEq optarg with
    | none => simp
    | some sd =>
      obtain ⟨src, dst⟩ := sd
      simp [Opt.isRoot, Opt.childDir, Opt.binaryOf]
      split_ifs <;> simp_all
  | u optarg =>
    simp only [step]
    cases hsc : sscanf_d optarg with
    | none => simp
    | some v => simp [Opt.isRoot, Opt.childDir, Opt.binaryOf]; split_ifs <;> simp_all
  | g optarg =>
    simp only [step]
    cases hsc : sscanf_d optarg with
    | none => simp
    | some v => simp [Opt.isRoot, Opt.childDir, Opt.binaryOf]; split_ifs <;> simp_all
  | t optarg =>
    simp [step, Opt.isRoot, Opt.childDir, Opt.binaryOf]
    split_ifs <;> simp_all
  | _ =>
    simp [step, Opt.isRoot, Opt.childDir, Opt.binaryOf] <;> split_ifs <;> simp_all

/-- With a kernel that fails no call, a well-formed option does not exit. -/
theorem step_complete (K : Kernel) (uid gid : Nat) (a : Opt) (p : Proc)
    (hK : ∀ n s, 0 ≤ K.ret n s) (ha : a.wellFormed = true) :
    (step K uid gid a p).outcome = none := by
  revert ha
  cases a with
  | b optarg =>
    simp only [step, Opt.wellFormed]
    cases hsp : splitEq optarg with
    | none => simp
    | some sd =>
      obtain ⟨src, dst⟩ := sd
      simp [hK]
      split_ifs <;> simp_all
  | u optarg =>
    simp only [step, Opt.wellFormed]
    cases hsc : sscanf_d optarg with
    | none => simp
    | some v => simp [hK]
  | g optarg =>
    simp only [step, Opt.wellFormed]
    cases hsc : sscanf_d optarg with
    | none => simp
    | some v => simp [hK]
  | t optarg =>
    simp [step, hK]
    split_ifs <;> simp_all
  | _ =>
    simp [step, hK, Opt.wellFormed]

/-! ### The option loop -/

@[simp] theorem runOpts_nil (K : Kernel) (uid gid : Nat) (p : Proc) :
    runOpts K uid gid [] p = .cont () p := rfl

@[simp] theorem runOpts_cons (K : Kernel) (uid gid : Nat) (a : Opt) (l : List Opt)
    (p : Proc) :
    runOpts K uid gid (a :: l) p =
      match step K uid gid a p with
      | .cont _ q => runOpts K uid gid l q
      | .halt o q => .halt o q := by
  simp only [runOpts, bind_apply]
  cases step K uid gid a p <;> rfl

theorem runOpts_fatal (K : Kernel) (uid gid : Nat) (l : List Opt) (p : Proc) :
    (runOpts K uid gid l p).Fatal := by
  induction l generalizing p with
  | nil => simp [Res.Fatal]
  | cons a l ih =>
    have h := step_fatal K uid gid a p
    rw [runOpts_cons]
    cases hs : step K uid gid a p with
    | cont u q => exact ih q
    | halt o q => rw [hs] at h; exact h

theorem runOpts_locals (K : Kernel) (uid gid : Nat) (l : List Opt) (p : Proc)
    (h : (runOpts K uid gid l p).outcome = none) :
    (runOpts K uid gid l p).proc.root_set = (p.root_set || l.any Opt.isRoot) ∧
    (runOpts K uid gid l p).proc.child_dir = childDirAfter l p.child_dir := by
  induction l generalizing p with
  | nil => simp [childDirAfter]
  | cons a l ih =>
    rw [runOpts_cons] at h ⊢
    have hl := step_locals K uid gid a p
    cases hs : step K uid gid a p with
    | cont u q =>
      rw [hs] at h hl
      have hq := hl rfl
      simp only [proc_cont] at hq
      have := ih q h
      simp only [this, hq.1, hq.2.1, List.any_cons, Bool.or_assoc, childDirAfter,
        List.foldl_cons, and_self]
    | halt o q => rw [hs] at h; simp at h

theorem runOpts_calls (K : Kernel) (uid gid : Nat) (l : List Opt) (p : Proc)
    (h : (runOpts K uid gid l p).outcome = none) :
    (runOpts K uid gid l p).proc.trace =
      p.trace ++ concatCalls K uid gid p.trace.length l := by
  induction l generalizing p with
  | nil => simp [concatCalls]
  | cons a l ih =>
    rw [runOpts_cons] at h ⊢
    have hc := step_calls K uid gid a p
    cases hs : step K uid gid a p with
    | cont u q =>
      rw [hs] at h hc
      simp only [proc_cont] at hc
      have := ih q h
      simp only [this, hc, concatCalls, List.length_append, List.append_assoc]
    | halt o q => rw [hs] at h; simp at h

/-- Whatever the loop issues is a call of one of the actions of the list. -/
theorem runOpts_calls_mem (K : Kernel) (uid gid : Nat) (l : List Opt) (p : Proc) :
    ∃ ext, (runOpts K uid gid l p).proc.trace = p.trace ++ ext ∧
      ∀ c ∈ ext, ∃ a ∈ l, ∃ n, c ∈ actionCalls K uid gid n a := by
  induction l generalizing p with
  | nil => exact ⟨[], by simp⟩
  | cons a l ih =>
    rw [runOpts_cons]
    have hc := step_calls K uid gid a p
    cases hs : step K uid gid a p with
    | cont u q =>
      rw [hs] at hc
      simp only [proc_cont] at hc
      obtain ⟨ext, he, hm⟩ := ih q
      refine ⟨actionCalls K uid gid p.trace.length a ++ ext, ?_, ?_⟩
      · simp only [he, hc, List.append_assoc]
      · intro c hcm
        rcases List.mem_append.mp hcm with h1 | h2
        · exact ⟨a, List.mem_cons_self _ _, _, h1⟩
        · obtain ⟨b, hb, n, hn⟩ := hm c h2
          exact ⟨b, List.mem_cons_of_mem _ hb, n, hn⟩
    | halt o q =>
      rw [hs] at hc
      simp only [proc_halt] at hc
      refine ⟨actionCalls K uid gid p.trace.length a, by simp only [proc_halt, hc], ?_⟩
      intro c hcm
      exact ⟨a, List.mem_cons_self _ _, _, hcm⟩

theorem runOpts_complete (K : Kernel) (uid gid : Nat) (l : List Opt) (p : Proc)
    (hK : ∀ n s, 0 ≤ K.ret n s) (hl : ∀ a ∈ l, a.wellFormed = true) :
    (runOpts K uid gid l p).outcome = none := by
  induction l generalizing p with
  | nil => simp
  | cons a l ih =>
    rw [runOpts_cons]
    have hs := step_complete K uid gid a p hK (hl a (List.mem_cons_self _ _))
    cases hst : step K uid gid a p with
    | cont u q => exact ih q (fun b hb => hl b (List.mem_cons_of_mem _ hb))
    | halt o q => rw [hst] at hs; simp at hs

theorem concatCalls_append (K : Kernel) (uid gid : Nat) (n : Nat) (l1 l2 : List Opt) :
    concatCalls K uid gid n (l1 ++ l2) =
      concatCalls K uid gid n l1 ++
        concatCalls K uid gid (n + (concatCalls K uid gid n l1).length) l2 := by
  induction l1 generalizing n with
  | nil => simp [concatCalls]
  | cons a l ih =>
    simp [concatCalls, ih, Nat.add_assoc]

/-! ### The calls of the actions are calls of the loop -/

theorem mem_checked {K : Kernel} {n : Nat} {l : List Syscall} {c : Call}
    (h : c ∈ checked K n l) : c.sys ∈ l := by
  induction l generalizing n with
  | nil => simp [checked] at h
  | cons s l ih =>
    simp only [checked, List.mem_cons] at h
    rcases h with h | h
    · subst h; exact List.mem_cons_self _ _
    · split_ifs at h
      · exact List.mem_cons_of_mem _ (ih h)
      · simp at h

theorem checked_inLoop {K : Kernel} {n : Nat} {l : List Syscall}
    (hl : l.all Syscall.inLoop = true) {c : Call} (h : c ∈ checked K n l) :
    c.sys.inLoop = true :=
  List.all_eq_true.mp hl _ (mem_checked h)

theorem actionCalls_inLoop (K : Kernel) (uid gid n : Nat) (a : Opt) (c : Call)
    (h : c ∈ actionCalls K uid gid n a) : c.sys.inLoop = true := by
  cases a with
  | b optarg =>
    simp only [actionCalls] at h
    cases hsp : splitEq optarg with
    | none => simp [hsp] at h
    | some sd =>
      obtain ⟨src, dst⟩ := sd
      simp only [hsp] at h
      rcases List.mem_cons.mp h with rfl | h
      · rfl
      · split_ifs at h
        · rcases List.mem_cons.mp h with rfl | h
          · rfl
          · refine checked_inLoop ?_ h; rfl
        · rcases List.mem_cons.mp h with rfl | h
          · rfl
          · refine checked_inLoop ?_ h; rfl
        · refine checked_inLoop ?_ h; rfl
        · exact absurd h (List.not_mem_nil _)
  | u optarg =>
    simp only [actionCalls] at h
    cases hsc : sscanf_d optarg with
    | none => simp [hsc] at h
    | some v =>
      simp only [hsc] at h
      refine checked_inLoop ?_ h; rfl
  | g optarg =>
    simp only [actionCalls] at h
    cases hsc : sscanf_d optarg with
    | none => simp [hsc] at h
    | some v =>
      simp only [hsc] at h
      refine checked_inLoop ?_ h; rfl
  | t optarg =>
    rcases List.mem_cons.mp h with rfl | h
    · rfl
    · refine checked_inLoop ?_ h; split_ifs <;> rfl
  | s optarg =>
    rcases List.mem_cons.mp h with rfl | h
    · rfl
    · refine checked_inLoop ?_ h; rfl
  | r optarg => refine checked_inLoop ?_ h; rfl
  | D optarg => refine checked_inLoop ?_ h; rfl
  | Z =>
    simp only [actionCalls, List.mem_singleton] at h
    subst h; rfl
  | q => simp [actionCalls] at h
  | B optarg => simp [actionCalls] at h
  | d optarg => simp [actionCalls] at h
  | unknown => simp [actionCalls] at h

/-! ### The head and the tail of `main` -/

theorem afterUnshare_trace (K : Kernel) :
    (afterUnshare K).trace =
      [⟨.getuid, K.uid⟩, ⟨.getgid, K.gid⟩,
       ⟨.unshare unshare_flags, K.ret 2 (.unshare unshare_flags)⟩] := rfl

theorem assemble_apply (K : Kernel) (opts : List Opt) :
    assemble K opts Proc.init =
      if 0 ≤ K.ret 2 (.unshare unshare_flags) then
        runOpts K K.uid K.gid opts (afterUnshare K)
      else .halt (.checkfail "unshare" (K.ret 2 (.unshare unshare_flags))) (afterUnshare K) := by
  have hlen : ((Proc.init.push .getuid K.uid).push .getgid K.gid).trace.length = 2 := rfl
  simp only [assemble, bind_apply, getuid, getgid, ok_apply, hlen, afterUnshare]
  split_ifs <;> rfl

theorem finish_noroot (K : Kernel) (rest : List String) (p : Proc)
    (h : p.root_set = false) :
    finish K rest p = .halt (.errorf "-s option is mandatory") p := by
  simp [finish, h]

theorem okSeq_cons (K : Kernel) (name : String) (s : Syscall)
    (l : List (String × Syscall)) (p : Proc) :
    okSeq K ((name, s) :: l) p =
      if 0 ≤ K.ret p.trace.length s then okSeq K l (p.push s (K.ret p.trace.length s))
      else .halt (.checkfail name (K.ret p.trace.length s))
        (p.push s (K.ret p.trace.length s)) := by
  simp only [okSeq, ok_bind_apply]

theorem okSeq_calls (K : Kernel) (l : List (String × Syscall)) (p : Proc) :
    (okSeq K l p).proc.trace = p.trace ++ checked K p.trace.length (l.map Prod.snd) := by
  induction l generalizing p with
  | nil => simp [okSeq, checked]
  | cons a l ih =>
    obtain ⟨name, s⟩ := a
    rw [okSeq_cons]
    split_ifs with h
    · simp [ih, checked, h]
    · simp [checked, h]

theorem okSeq_outcome (K : Kernel) (l : List (String × Syscall)) (p : Proc) :
    (okSeq K l p).outcome = none ↔
      ∀ c ∈ checked K p.trace.length (l.map Prod.snd), 0 ≤ c.res := by
  induction l generalizing p with
  | nil => simp [okSeq, checked]
  | cons a l ih =>
    obtain ⟨name, s⟩ := a
    rw [okSeq_cons]
    split_ifs with h
    · simp [ih, checked, h]
    · simp [checked, h]

theorem okSeq_fatal (K : Kernel) (l : List (String × Syscall)) (p : Proc) :
    (okSeq K l p).Fatal := by
  induction l generalizing p with
  | nil => simp [okSeq, Res.Fatal]
  | cons a l ih =>
    obtain ⟨name, s⟩ := a
    rw [okSeq_cons]
    split_ifs with h
    · exact ih _
    · simp only [Res.Fatal, push_trace]
      exact ⟨by omega, by simp⟩

theorem finishSeq_calls (child_dir binary : Option String) (rest : List String) :
    (finishSeq child_dir binary rest).map Prod.snd =
      finalizeCalls ++ handoffCalls child_dir binary rest := by
  cases child_dir <;> rfl

theorem finish_eq (K : Kernel) (rest : List String) (p : Proc)
    (h : p.root_set = true) :
    finish K rest p = okSeq K (finishSeq p.child_dir p.binary rest) p := by
  cases hd : p.child_dir
  · simp [finish, h, hd, dropcaps, finishSeq, okSeq, capsetCall]
  · simp [finish, h, hd, dropcaps, finishSeq, okSeq, capsetCall]

theorem finish_calls (K : Kernel) (rest : List String) (p : Proc)
    (h : p.root_set = true) :
    (finish K rest p).proc.trace =
      p.trace ++ checked K p.trace.length
        (finalizeCalls ++ handoffCalls p.child_dir p.binary rest) := by
  rw [finish_eq K rest p h, okSeq_calls, finishSeq_calls]

theorem finish_fatal (K : Kernel) (rest : List String) (p : Proc) :
    (finish K rest p).Fatal := by
  cases hr : p.root_set
  · rw [finish_noroot K rest p hr]; trivial
  · rw [finish_eq K rest p hr]; exact okSeq_fatal K _ p

/-- The tail of `main` gets to its end exactly when none of its calls fails. -/
theorem finish_outcome (K : Kernel) (rest : List String) (p : Proc)
    (h : p.root_set = true) :
    (finish K rest p).outcome = none ↔
      ∀ c ∈ checked K p.trace.length
        (finalizeCalls ++ handoffCalls p.child_dir p.binary rest), 0 ≤ c.res := by
  rw [finish_eq K rest p h, okSeq_outcome, finishSeq_calls]

theorem run_eq (K : Kernel) (opts : List Opt) (rest : List String) :
    run K opts rest =
      match assemble K opts Proc.init with
      | .halt o q => (o, q)
      | .cont _ q =>
          match finish K rest q with
          | .cont _ z => (.exec, z)
          | .halt o z => (o, z) := by
  simp only [run, main, bind_apply]
  cases assemble K opts Proc.init with
  | halt o q => rfl
  | cont u q => cases finish K rest q <;> rfl

/-- The four ways a run goes: `unshare` fails; an action exits; the loop ends
without `-s`; the loop ends with `root_set` and the tail of `main` runs. -/
theorem run_cases (K : Kernel) (opts : List Opt) (rest : List String) :
    (K.ret 2 (.unshare unshare_flags) < 0 ∧
      run K opts rest =
        (.checkfail "unshare" (K.ret 2 (.unshare unshare_flags)), afterUnshare K)) ∨
    (0 ≤ K.ret 2 (.unshare unshare_flags) ∧
      ∃ o q, runOpts K K.uid K.gid opts (afterUnshare K) = .halt o q ∧
        run K opts rest = (o, q)) ∨
    (0 ≤ K.ret 2 (.unshare unshare_flags) ∧
      ∃ q, runOpts K K.uid K.gid opts (afterUnshare K) = .cont () q ∧
        q.root_set = false ∧
        run K opts rest = (.errorf "-s option is mandatory", q)) ∨
    (0 ≤ K.ret 2 (.unshare unshare_flags) ∧
      ∃ q, runOpts K K.uid K.gid opts (afterUnshare K) = .cont () q ∧
        q.root_set = true ∧
        run K opts rest =
          match finish K rest q with
          | .cont _ z => (.exec, z)
          | .halt o z => (o, z)) := by
  rw [run_eq, assemble_apply]
  by_cases hu : 0 ≤ K.ret 2 (.unshare unshare_flags)
  · rw [if_pos hu]
    cases hl : runOpts K K.uid K.gid opts (afterUnshare K) with
    | halt o q => exact Or.inr (Or.inl ⟨hu, o, q, rfl, rfl⟩)
    | cont u q =>
      cases hr : q.root_set
      · refine Or.inr (Or.inr (Or.inl ⟨hu, q, rfl, hr, ?_⟩))
        simp only [finish_noroot K rest q hr]
      · exact Or.inr (Or.inr (Or.inr ⟨hu, q, rfl, hr, rfl⟩))
  · rw [if_neg hu]
    exact Or.inl ⟨by omega, rfl⟩

theorem finish_pair_trace (K : Kernel) (rest : List String) (q : Proc) :
    (match finish K rest q with
      | .cont _ z => (Outcome.exec, z)
      | .halt o z => (o, z)).2 = (finish K rest q).proc := by
  cases finish K rest q <;> rfl

/-- The calls of a run: the three of the start, then calls of the actions of
the list, then, when the loop ended with `root_set`, the calls of the tail of
`main` until one fails. -/
theorem run_trace (K : Kernel) (opts : List Opt) (rest : List String) :
    ∃ ext fin, (run K opts rest).2.trace = (afterUnshare K).trace ++ ext ++ fin ∧
      (∀ c ∈ ext, ∃ a ∈ opts, ∃ n, c ∈ actionCalls K K.uid K.gid n a) ∧
      (fin = [] ∨ ∃ q, runOpts K K.uid K.gid opts (afterUnshare K) = .cont () q ∧
        q.root_set = true ∧ q.trace = (afterUnshare K).trace ++ ext ∧
        fin = checked K q.trace.length
          (finalizeCalls ++ handoffCalls q.child_dir q.binary rest)) ∧
      (0 ≤ K.ret 2 (.unshare unshare_flags) ∨ (ext = [] ∧ fin = [])) := by
  obtain ⟨ext, hext, hmem⟩ := runOpts_calls_mem K K.uid K.gid opts (afterUnshare K)
  rcases run_cases K opts rest with ⟨hu, hr⟩ | ⟨hu, o, q, hl, hr⟩ | ⟨hu, q, hl, hroot, hr⟩ |
    ⟨hu, q, hl, hroot, hr⟩
  · refine ⟨[], [], ?_, ?_, Or.inl rfl, Or.inr ⟨rfl, rfl⟩⟩
    · rw [hr]; simp
    · intro c hc; simp at hc
  · rw [hl] at hext
    refine ⟨ext, [], ?_, hmem, Or.inl rfl, Or.inl hu⟩
    rw [hr]; simpa using hext
  · rw [hl] at hext
    refine ⟨ext, [], ?_, hmem, Or.inl rfl, Or.inl hu⟩
    rw [hr]; simpa using hext
  · rw [hl] at hext
    simp only [proc_cont] at hext
    refine ⟨ext, _, ?_, hmem, Or.inr ⟨q, hl, hroot, hext, rfl⟩, Or.inl hu⟩
    rw [hr, finish_pair_trace, finish_calls K rest q hroot, hext]

theorem any_isRoot_of_no_s (opts : List Opt) (h : ∀ path, Opt.s path ∉ opts) :
    opts.any Opt.isRoot = false := by
  rw [List.any_eq_false]
  intro a ha
  cases a with
  | s path => exact absurd ha (h path)
  | _ => simp [Opt.isRoot]

theorem root_set_after_loop (K : Kernel) (opts : List Opt) (q : Proc)
    (hl : runOpts K K.uid K.gid opts (afterUnshare K) = .cont () q) :
    q.root_set = opts.any Opt.isRoot ∧ q.child_dir = childDirAfter opts none := by
  have := runOpts_locals K K.uid K.gid opts (afterUnshare K) (by rw [hl]; rfl)
  rw [hl] at this
  simpa [afterUnshare, Proc.init, Proc.push] using this

/-! ### More on `checked` -/

theorem checked_append (K : Kernel) (n : Nat) (l1 l2 : List Syscall) :
    checked K n (l1 ++ l2) =
      if ∀ c ∈ checked K n l1, 0 ≤ c.res then
        checked K n l1 ++ checked K (n + l1.length) l2
      else checked K n l1 := by
  induction l1 generalizing n with
  | nil => simp [checked]
  | cons s l ih =>
    have hlen : n + 1 + l.length = n + (l.length + 1) := by omega
    rw [List.cons_append, checked, checked, ih, hlen, List.length_cons]
    by_cases h : 0 ≤ K.ret n s
    · simp only [h, if_true, List.mem_cons, forall_eq_or_imp, true_and]
      split_ifs <;> rfl
    · simp [h]

/-- The calls of the tail of `main` end in one of three ways: before `capset`,
at a failed `capset`, or with a successful `capset` followed by `execv`. -/
theorem checked_two_last (K : Kernel) (n : Nat) (F : List Syscall) (a b : Syscall) :
    ∃ X, (∀ c ∈ X, c.sys ∈ F) ∧
      (checked K n (F ++ [a, b]) = X ∨
       (∃ r, r < 0 ∧ checked K n (F ++ [a, b]) = X ++ [⟨a, r⟩]) ∨
       (∃ r r', 0 ≤ r ∧ checked K n (F ++ [a, b]) = X ++ [⟨a, r⟩, ⟨b, r'⟩])) := by
  refine ⟨checked K n F, fun c hc => mem_checked hc, ?_⟩
  rw [checked_append]
  split_ifs with h
  · by_cases hr : 0 ≤ K.ret (n + F.length) a
    · refine Or.inr (Or.inr ⟨_, K.ret (n + F.length + 1) b, hr, ?_⟩)
      simp only [checked, hr, if_true]
      split_ifs <;> rfl
    · refine Or.inr (Or.inl ⟨K.ret (n + F.length) a, by omega, ?_⟩)
      simp only [checked, hr, if_false]
  · exact Or.inl rfl

theorem split_at_last {α : Type} {P : α → Prop} {A pre post : List α} {y e : α}
    (hA : ∀ c ∈ A, ¬ P c) (he : P e) (h : A ++ [y] = pre ++ e :: post) :
    pre = A ∧ post = [] ∧ e = y := by
  induction A generalizing pre with
  | nil =>
    cases pre with
    | nil =>
      simp only [List.nil_append, List.cons.injEq] at h
      exact ⟨rfl, h.2.symm, h.1.symm⟩
    | cons p pre' =>
      simp only [List.nil_append, List.cons_append, List.cons.injEq] at h
      have := h.2
      cases pre' <;> simp at this
  | cons a A' ih =>
    cases pre with
    | nil =>
      simp only [List.cons_append, List.nil_append, List.cons.injEq] at h
      exact absurd (h.1 ▸ he) (hA a (List.mem_cons_self _ _))
    | cons p pre' =>
      simp only [List.cons_append, List.cons.injEq] at h
      obtain ⟨h1, h2, h3⟩ := ih (fun c hc => hA c (List.mem_cons_of_mem _ hc)) h.2
      exact ⟨by rw [h.1, h1], h2, h3⟩

theorem handoff_split (cd bin : Option String) (rest : List String) :
    finalizeCalls ++ handoffCalls cd bin rest =
      (finalizeCalls ++ (match cd with
        | some dir => [Syscall.chdir dir]
        | none => [])) ++
      [capsetCall, .execv (match bin with
        | none => rest.head?
        | some b => some b) rest] := by
  cases cd <;> rfl

/-- Every run issues `capset` and `execv` only at the very end: its calls are
calls other than these two, then possibly a failed `capset`, or a successful
`capset` followed by `execv`. -/
theorem run_handoff_shape (K : Kernel) (opts : List Opt) (rest : List String) :
    ∃ T, (∀ c ∈ T, c.sys.isHandoff = false) ∧
      ((run K opts rest).2.trace = T ∨
       (∃ r, r < 0 ∧ (run K opts rest).2.trace = T ++ [⟨capsetCall, r⟩]) ∨
       (∃ r r' bin, 0 ≤ r ∧
          (run K opts rest).2.trace = T ++ [⟨capsetCall, r⟩, ⟨.execv bin rest, r'⟩])) := by
  obtain ⟨ext, fin, ht, hmem, hfin, _⟩ := run_trace K opts rest
  have hpre : ∀ c ∈ (afterUnshare K).trace ++ ext, c.sys.isHandoff = false := by
    intro c hc
    rcases List.mem_append.mp hc with h | h
    · rw [afterUnshare_trace] at h
      simp only [List.mem_cons, List.mem_singleton, List.not_mem_nil, or_false] at h
      rcases h with rfl | rfl | rfl <;> rfl
    · obtain ⟨a, _, n, hn⟩ := hmem c h
      have hin := actionCalls_inLoop K K.uid K.gid n a c hn
      revert hin
      cases c.sys <;> simp [Syscall.inLoop, Syscall.isHandoff]
  rcases hfin with h0 | ⟨q, _, _, _, hq⟩
  · refine ⟨(afterUnshare K).trace ++ ext, hpre, Or.inl ?_⟩
    rw [ht, h0, List.append_nil]
  · rw [handoff_split] at hq
    obtain ⟨X, hX, hcases⟩ := checked_two_last K q.trace.length
      (finalizeCalls ++ (match q.child_dir with
        | some dir => [Syscall.chdir dir]
        | none => [])) capsetCall
      (.execv (match q.binary with
        | none => rest.head?
        | some b => some b) rest)
    rw [← hq] at hcases
    refine ⟨(afterUnshare K).trace ++ ext ++ X, ?_, ?_⟩
    · intro c hc
      rcases List.mem_append.mp hc with h | h
      · exact hpre c h
      · have hall : (finalizeCalls ++ (match q.child_dir with
            | some dir => [Syscall.chdir dir]
            | none => [])).all (fun s => !s.isHandoff) = true := by
          cases q.child_dir <;> rfl
        have := List.all_eq_true.mp hall _ (hX c h)
        simpa using this
    · rcases hcases with h | ⟨r, hr, h⟩ | ⟨r, r', hr, h⟩
      · exact Or.inl (by rw [ht, h])
      · exact Or.inr (Or.inl ⟨r, hr, by simp [ht, h]⟩)
      · exact Or.inr (Or.inr ⟨r, r', (match q.binary with
          | none => rest.head?
          | some b => some b), hr, by simp [ht, h]⟩)

theorem checked_neg_last (K : Kernel) (n : Nat) (l : List Syscall) (c : Call)
    (hc : c ∈ checked K n l) (hneg : c.res < 0) : (checked K n l).getLast? = some c := by
  induction l generalizing n with
  | nil => simp [checked] at hc
  | cons s l ih =>
    simp only [checked, List.mem_cons] at hc ⊢
    by_cases h : 0 ≤ K.ret n s
    · rw [if_pos h] at hc ⊢
      rcases hc with rfl | hc
      · simp only at hneg; omega
      · have hlast := ih (n + 1) hc
        cases hl : checked K (n + 1) l with
        | nil => rw [hl] at hc; simp at hc
        | cons x xs =>
          rw [hl] at hlast
          rw [List.getLast?_cons_cons]
          exact hlast
    · rw [if_neg h] at hc ⊢
      simp only [List.not_mem_nil, or_false] at hc
      rw [hc]
      rfl

theorem checked_map_of_ok (K : Kernel) (n : Nat) (l : List Syscall)
    (h : ∀ c ∈ checked K n l, 0 ≤ c.res) : (checked K n l).map Call.sys = l := by
  induction l generalizing n with
  | nil => rfl
  | cons s l ih =>
    simp only [checked, List.mem_cons, forall_eq_or_imp] at h
    obtain ⟨h0, h1⟩ := h
    simp only [checked, h0, if_true, List.map_cons] at h1 ⊢
    rw [ih (n + 1) h1]

theorem run_of_loop_done (K : Kernel) (opts : List Opt) (rest : List String)
    (hloop : (assemble K opts Proc.init).outcome = none) :
    run K opts rest =
      match finish K rest (assemble K opts Proc.init).proc with
      | .cont _ z => (.exec, z)
      | .halt o z => (o, z) := by
  rw [run_eq]
  cases h : assemble K opts Proc.init with
  | cont u q => rfl
  | halt o q => rw [h] at hloop; simp at hloop

theorem halt_status {α : Type} (r : Res α) (hf : r.Fatal) (o : Outcome)
    (ho : r.outcome = some o) : o.status = some 255 := by
  cases r with
  | cont a p => simp at ho
  | halt o' p =>
    simp only [outcome_halt, Option.some.injEq] at ho
    subst ho
    cases o' with
    | errorf msg => rfl
    | checkfail name res => rfl
    | exec => exact absurd hf (by simp [Res.Fatal])

/-! ### Successful runs -/

theorem assemble_of_unshare_ok (K : Kernel) (opts : List Opt)
    (hu : 0 ≤ K.ret 2 (.unshare unshare_flags)) :
    assemble K opts Proc.init = runOpts K K.uid K.gid opts (afterUnshare K) := by
  rw [assemble_apply, if_pos hu]

/-- A run that ends in `execv` went through the whole of `main`: `unshare`
succeeded, the loop ended with `root_set`, and every call of the tail of `main`
succeeded. -/
theorem run_exec (K : Kernel) (opts : List Opt) (rest : List String)
    (h : (run K opts rest).1 = .exec) :
    ∃ q, assemble K opts Proc.init = .cont () q ∧
      runOpts K K.uid K.gid opts (afterUnshare K) = .cont () q ∧
      q.root_set = true ∧
      (run K opts rest).2.trace = q.trace ++ checked K q.trace.length
        (finalizeCalls ++ handoffCalls q.child_dir q.binary rest) ∧
      ∀ c ∈ checked K q.trace.length
        (finalizeCalls ++ handoffCalls q.child_dir q.binary rest), 0 ≤ c.res := by
  rcases run_cases K opts rest with ⟨hu, hr⟩ | ⟨hu, o, q, hl, hr⟩ | ⟨hu, q, hl, hroot, hr⟩ |
    ⟨hu, q, hl, hroot, hr⟩
  · rw [hr] at h; simp at h
  · have hf := runOpts_fatal K K.uid K.gid opts (afterUnshare K)
    rw [hl] at hf
    rw [hr] at h
    simp only at h
    subst h
    exact absurd hf (by simp [Res.Fatal])
  · rw [hr] at h; simp at h
  · refine ⟨q, by rw [assemble_of_unshare_ok K opts hu, hl], hl, hroot, ?_, ?_⟩
    · rw [hr, finish_pair_trace, finish_calls K rest q hroot]
    · rw [← finish_outcome K rest q hroot]
      have hf := finish_fatal K rest q
      rw [hr] at h
      cases hfin : finish K rest q with
      | cont u z => rfl
      | halt o z =>
        rw [hfin] at h hf
        simp only at h
        subst h
        exact absurd hf (by simp [Res.Fatal])

theorem childDirAfter_of_no_d (l : List Opt) (dir : Option String)
    (h : ∀ x, Opt.d x ∉ l) : childDirAfter l dir = dir := by
  induction l generalizing dir with
  | nil => rfl
  | cons a l ih =>
    have ha : a.childDir dir = dir := by
      cases a with
      | d x => exact absurd (List.mem_cons_self _ _) (h x)
      | _ => rfl
    simp only [childDirAfter, List.foldl_cons, ha]
    exact ih dir (fun x hx => h x (List.mem_cons_of_mem _ hx))

theorem childDirAfter_last (l1 l2 : List Opt) (path : String) (dir : Option String)
    (h : ∀ x, Opt.d x ∉ l2) :
    childDirAfter (l1 ++ .d path :: l2) dir = some path := by
  simp only [childDirAfter, List.foldl_append, List.foldl_cons, Opt.childDir]
  exact childDirAfter_of_no_d l2 (some path) h

/-- Among the actions only `-s` issues a `chdir`, on its own argument. -/
theorem chdir_of_action (K : Kernel) (uid gid n : Nat) (a : Opt) (c : Call) (dir : String)
    (h : c ∈ actionCalls K uid gid n a) (hc : c.sys = .chdir dir) : a = .s dir := by
  have hno : ∀ {m : Nat} {l : List Syscall}, c ∈ checked K m l →
      (l.all fun s => !s.isChdir) = true → False := by
    intro m l hm hall
    have := List.all_eq_true.mp hall _ (mem_checked hm)
    simp [hc, Syscall.isChdir] at this
  cases a with
  | b optarg =>
    simp only [actionCalls] at h
    cases hsp : splitEq optarg with
    | none => simp [hsp] at h
    | some sd =>
      obtain ⟨src, dst⟩ := sd
      simp only [hsp] at h
      rcases List.mem_cons.mp h with rfl | h
      · simp at hc
      · split_ifs at h
        · rcases List.mem_cons.mp h with rfl | h
          · simp at hc
          · exact (hno h rfl).elim
        · rcases List.mem_cons.mp h with rfl | h
          · simp at hc
          · exact (hno h rfl).elim
        · exact (hno h rfl).elim
        · exact absurd h (List.not_mem_nil _)
  | u optarg =>
    simp only [actionCalls] at h
    cases hsc : sscanf_d optarg with
    | none => simp [hsc] at h
    | some v =>
      simp only [hsc] at h
      exact (hno h rfl).elim
  | g optarg =>
    simp only [actionCalls] at h
    cases hsc : sscanf_d optarg with
    | none => simp [hsc] at h
    | some v =>
      simp only [hsc] at h
      exact (hno h rfl).elim
  | t optarg =>
    rcases List.mem_cons.mp h with rfl | h
    · simp at hc
    · split_ifs at h <;> exact (hno h rfl).elim
  | s optarg =>
    rcases List.mem_cons.mp h with rfl | h
    · simp at hc
    · have := mem_checked h
      simp only [List.mem_cons, List.mem_singleton, List.not_mem_nil, or_false] at this
      rcases this with h1 | h1
      · rw [hc] at h1; simp at h1
      · rw [hc] at h1
        simp only [Syscall.chdir.injEq] at h1
        rw [h1]
  | r optarg => exact (hno h rfl).elim
  | D optarg => exact (hno h rfl).elim
  | Z =>
    simp only [actionCalls, List.mem_singleton] at h
    subst h; simp at hc
  | q => simp [actionCalls] at h
  | B optarg => simp [actionCalls] at h
  | d optarg => simp [actionCalls] at h
  | unknown => simp [actionCalls] at h

/-! ### Single actions -/

theorem splitChars_append (l1 l2 : List Char) (h : '=' ∉ l1) :
    splitChars (l1 ++ '=' :: l2) = some (l1, l2) := by
  induction l1 with
  | nil => simp [splitChars]
  | cons c cs ih =>
    have hc : c ≠ '=' := fun hc => h (by rw [hc]; exact List.mem_cons_self _ _)
    have hcs : '=' ∉ cs := fun hm => h (List.mem_cons_of_mem _ hm)
    simp [splitChars, hc, ih hcs]

/-- An argument `source=destination` whose source has no `=` is split into
the two. -/
theorem splitEq_concat (src dst : String) (h : '=' ∉ src.data) :
    splitEq (src ++ "=" ++ dst) = some (src, dst) := by
  have hd : (src ++ "=" ++ dst).data = src.data ++ '=' :: dst.data := by
    simp [String.data_append]
  simp only [splitEq, hd, splitChars_append src.data dst.data h, Option.map_some']

/-- The calls of `-u`: `open`, `write` of the record, `close`, `setresuid` with
the new ID in its three fields, each issued only if the one before succeeded. -/
theorem set_uid_calls (K : Kernel) (uid gid : Nat) (optarg : String) (newuid : Int)
    (p : Proc) (h : sscanf_d optarg = some newuid) :
    (step K uid gid (.u optarg) p).proc.trace = p.trace ++
      checked K p.trace.length
        [.open_ "/proc/self/uid_map" O_WRONLY none,
         .write (K.ret p.trace.length (.open_ "/proc/self/uid_map" O_WRONLY none))
           (mapRecord newuid uid) (mapRecord newuid uid).length,
         .close (K.ret p.trace.length (.open_ "/proc/self/uid_map" O_WRONLY none)),
         .setresuid (toUInt32 newuid) (toUInt32 newuid) (toUInt32 newuid)] := by
  rw [step_calls]
  simp only [actionCalls, h]

/-- The calls of `-g`, as for `-u` with the group mapping file and `setresgid`. -/
theorem set_gid_calls (K : Kernel) (uid gid : Nat) (optarg : String) (newgid : Int)
    (p : Proc) (h : sscanf_d optarg = some newgid) :
    (step K uid gid (.g optarg) p).proc.trace = p.trace ++
      checked K p.trace.length
        [.open_ "/proc/self/gid_map" O_WRONLY none,
         .write (K.ret p.trace.length (.open_ "/proc/self/gid_map" O_WRONLY none))
           (mapRecord newgid gid) (mapRecord newgid gid).length,
         .close (K.ret p.trace.length (.open_ "/proc/self/gid_map" O_WRONLY none)),
         .setresgid (toUInt32 newgid) (toUInt32 newgid) (toUInt32 newgid)] := by
  rw [step_calls]
  simp only [actionCalls, h]

/-- For a real ID below 2^31 the record holds the ID itself, in decimal. -/
theorem mapRecord_small (newid : Int) (id : Nat) (h : id < 2147483648) :
    mapRecord newid id = fmt_d newid ++ " " ++ Nat.repr id ++ " 1\n" := by
  have h1 : toInt32 (id : Int) = (id : Int) := by
    unfold toInt32
    have : (id : Int) % 4294967296 = id := by omega
    rw [this]
    split_ifs with hlt
    · rfl
    · omega
  have h2 : fmt_d (id : Int) = Nat.repr id := by
    unfold fmt_d
    have : ¬ ((id : Int) < 0) := by omega
    rw [if_neg this, Int.natAbs_ofNat]
  rw [mapRecord, h1, h2]

set_option maxHeartbeats 1000000 in
/-- In a `-b` action a negative result of any call but the `lstat` probe ends
the run at that call. -/
theorem bind_failure_fatal (K : Kernel) (uid gid : Nat) (optarg src dst : String) (p : Proc)
    (hsp : splitEq optarg = some (src, dst)) (c : Call)
    (hc : c ∈ actionCalls K uid gid p.trace.length (.b optarg)) (hneg : c.res < 0)
    (hnl : ∀ path, c.sys ≠ .lstat path) :
    (∃ name, (step K uid gid (.b optarg) p).outcome = some (.checkfail name c.res)) ∧
    (step K uid gid (.b optarg) p).proc.trace.getLast? = some c := by
  simp only [actionCalls, hsp] at hc
  by_cases h1 : 0 ≤ K.ret p.trace.length (.stat src)
  · by_cases h2 : S_ISDIR (K.st_mode p.trace.length) = true
    · by_cases h3 : K.ret (p.trace.length + 1) (.lstat dst) < 0
      · by_cases h4 : 0 ≤ K.ret (p.trace.length + 2) (.mkdir dst 0o755)
        · by_cases h5 : 0 ≤ K.ret (p.trace.length + 3)
              (.mount src dst none (MS_REC ||| MS_BIND) none)
          · simp [checked, Nat.add_assoc, h1, h2, h3, h4, h5] at hc
            rcases hc with rfl | rfl | rfl | rfl
            · simp [Nat.add_assoc] at hneg; omega
            · exact absurd rfl (hnl dst)
            · simp [Nat.add_assoc] at hneg; omega
            · simp [Nat.add_assoc] at hneg; omega
          · simp [checked, Nat.add_assoc, h1, h2, h3, h4, h5] at hc
            rcases hc with rfl | rfl | rfl | rfl
            · simp [Nat.add_assoc] at hneg; omega
            · exact absurd rfl (hnl dst)
            · simp [Nat.add_assoc] at hneg; omega
            · cases hv : p.verbose <;> simp [step, hsp, hv, h1, h2, h3, h4, h5]
        · simp [checked, Nat.add_assoc, h1, h2, h3, h4] at hc
          rcases hc with rfl | rfl | rfl
          · simp [Nat.add_assoc] at hneg; omega
          · exact absurd rfl (hnl dst)
          · cases hv : p.verbose <;> simp [step, hsp, hv, h1, h2, h3, h4]
      · by_cases h5 : 0 ≤ K.ret (p.trace.length + 2)
            (.mount src dst none (MS_REC ||| MS_BIND) none)
        · simp [checked, Nat.add_assoc, h1, h2, h3, h5] at hc
          rcases hc with rfl | rfl | rfl
          · simp [Nat.add_assoc] at hneg; omega
          · exact absurd rfl (hnl dst)
          · simp [Nat.add_assoc] at hneg; omega
        · simp [checked, Nat.add_assoc, h1, h2, h3, h5] at hc
          rcases hc with rfl | rfl | rfl
          · simp [Nat.add_assoc] at hneg; omega
          · exact absurd rfl (hnl dst)
          · cases hv : p.verbose <;> simp [step, hsp, hv, h1, h2, h3, h5]
    · by_cases h3 : 0 ≤ K.ret (p.trace.length + 1)
          (.open_ dst (O_WRONLY ||| O_CREAT) (some 0o666))
      · by_cases h4 : 0 ≤ K.ret (p.trace.length + 2)
            (.close (K.ret (p.trace.length + 1)
              (.open_ dst (O_WRONLY ||| O_CREAT) (some 0o666))))
        · by_cases h5 : 0 ≤ K.ret (p.trace.length + 3) (.mount src dst none MS_BIND none)
          · simp [checked, Nat.add_assoc, h1, h2, h3, h4, h5] at hc
            rcases hc with rfl | rfl | rfl | rfl <;> simp [Nat.add_assoc] at hneg <;> omega
          · simp [checked, Nat.add_assoc, h1, h2, h3, h4, h5] at hc
            rcases hc with rfl | rfl | rfl | rfl
            · simp [Nat.add_assoc] at hneg; omega
            · simp [Nat.add_assoc] at hneg; omega
            · simp [Nat.add_assoc] at hneg; omega
            · cases hv : p.verbose <;> simp [step, hsp, hv, h1, h2, h3, h4, h5]
        · simp [checked, Nat.add_assoc, h1, h2, h3, h4] at hc
          rcases hc with rfl | rfl | rfl
          · simp [Nat.add_assoc] at hneg; omega
          · simp [Nat.add_assoc] at hneg; omega
          · cases hv : p.verbose <;> simp [step, hsp, hv, h1, h2, h3, h4]
      · simp [checked, Nat.add_assoc, h1, h2, h3] at hc
        rcases hc with rfl | rfl
        · simp [Nat.add_assoc] at hneg; omega
        · cases hv : p.verbose <;> simp [step, hsp, hv, h1, h2, h3]
  · simp [h1] at hc
    subst hc
    cases hv : p.verbose <;> simp [step, hsp, hv, h1]

theorem S_ISDIR_of_S_ISREG (m : Nat) (h : S_ISREG m = true) : S_ISDIR m = false := by
  simp only [S_ISREG, S_ISDIR, beq_iff_eq, beq_eq_false_iff_ne] at h ⊢
  rw [h]
  decide

/-! ### A failed call whose result is checked is the last call -/

theorem failLast_nil : FailLast [] := by
  intro pre c post h
  simp at h

theorem failLast_cons {x : Call} {l : List Call} (hx : x.settled = true)
    (hl : FailLast l) : FailLast (x :: l) := by
  intro pre c post h hc
  cases pre with
  | nil =>
    simp only [List.nil_append, List.cons.injEq] at h
    rw [← h.1, hx] at hc
    exact absurd hc (by decide)
  | cons y pre' =>
    simp only [List.cons_append, List.cons.injEq] at h
    exact hl pre' c post h.2 hc

theorem failLast_append {l1 l2 : List Call} (h1 : ∀ c ∈ l1, c.settled = true)
    (h2 : FailLast l2) : FailLast (l1 ++ l2) := by
  induction l1 with
  | nil => exact h2
  | cons x l ih =>
    exact failLast_cons (h1 x (List.mem_cons_self _ _))
      (ih (fun c hc => h1 c (List.mem_cons_of_mem _ hc)))

theorem failLast_checked (K : Kernel) (n : Nat) (l : List Syscall) :
    FailLast (checked K n l) := by
  induction l generalizing n with
  | nil => exact failLast_nil
  | cons s l ih =>
    simp only [checked]
    split_ifs with h
    · exact failLast_cons (by simp [Call.settled, h]) (ih (n + 1))
    · intro pre c post heq _
      cases pre with
      | nil =>
        simp only [List.nil_append, List.cons.injEq] at heq
        exact heq.2.symm
      | cons y pre' =>
        simp at heq

theorem settled_of_checked_ok {K : Kernel} {n : Nat} {l : List Syscall}
    (h : ∀ c ∈ checked K n l, 0 ≤ c.res) : ∀ c ∈ checked K n l, c.settled = true := by
  intro c hc
  simp [Call.settled, h c hc]

theorem actionCalls_failLast (K : Kernel) (uid gid n : Nat) (a : Opt) :
    FailLast (actionCalls K uid gid n a) := by
  cases a with
  | b optarg =>
    simp only [actionCalls]
    cases hsp : splitEq optarg with
    | none => exact failLast_nil
    | some sd =>
      obtain ⟨src, dst⟩ := sd
      simp only []
      by_cases h1 : 0 ≤ K.ret n (.stat src)
      · rw [if_pos h1]
        refine failLast_cons (by simp [Call.settled, h1]) ?_
        split_ifs
        · exact failLast_cons (by simp [Call.settled, Syscall.unchecked]) (failLast_checked K _ _)
        · exact failLast_cons (by simp [Call.settled, Syscall.unchecked]) (failLast_checked K _ _)
        · exact failLast_checked K _ _
      · rw [if_neg h1]
        intro pre c post heq _
        cases pre with
        | nil =>
          simp only [List.nil_append, List.cons.injEq] at heq
          exact heq.2.symm
        | cons y pre' => simp at heq
  | u optarg =>
    simp only [actionCalls]
    cases hsc : sscanf_d optarg with
    | none => exact failLast_nil
    | some v => exact failLast_checked K _ _
  | g optarg =>
    simp only [actionCalls]
    cases hsc : sscanf_d optarg with
    | none => exact failLast_nil
    | some v => exact failLast_checked K _ _
  | t optarg => exact failLast_cons (by simp [Call.settled, Syscall.unchecked]) (failLast_checked K _ _)
  | s optarg => exact failLast_cons (by simp [Call.settled, Syscall.unchecked]) (failLast_checked K _ _)
  | r optarg => exact failLast_checked K _ _
  | D optarg => exact failLast_checked K _ _
  | Z => exact failLast_cons (by simp [Call.settled, Syscall.unchecked]) failLast_nil
  | q => exact failLast_nil
  | B optarg => exact failLast_nil
  | d optarg => exact failLast_nil
  | unknown => exact failLast_nil

set_option maxHeartbeats 1000000 in
/-- When a `case` of the `switch` does not end in `checkreturn`, none of its
checked calls failed. -/
theorem step_settled (K : Kernel) (uid gid : Nat) (a : Opt) (p : Proc)
    (h : ∀ name res, (step K uid gid a p).outcome ≠ some (.checkfail name res)) :
    ∀ c ∈ actionCalls K uid gid p.trace.length a, c.settled = true := by
  revert h
  cases a with
  | b optarg =>
    simp only [step, actionCalls]
    cases hsp : splitEq optarg with
    | none => simp
    | some sd =>
      obtain ⟨src, dst⟩ := sd
      simp [checked]
      split_ifs <;> simp_all [checked, Call.settled, Syscall.unchecked]
  | u optarg =>
    simp only [step, actionCalls]
    cases hsc : sscanf_d optarg with
    | none => simp
    | some v => simp [checked]; split_ifs <;> simp_all [Call.settled, Syscall.unchecked]
  | g optarg =>
    simp only [step, actionCalls]
    cases hsc : sscanf_d optarg with
    | none => simp
    | some v => simp [checked]; split_ifs <;> simp_all [Call.settled, Syscall.unchecked]
  | t optarg =>
    simp [step, actionCalls, checked]
    split_ifs <;> simp_all [checked, Call.settled, Syscall.unchecked]
  | _ =>
    simp [step, actionCalls, checked, Call.settled, Syscall.unchecked] <;>
      (try (split_ifs <;> simp_all [Call.settled, Syscall.unchecked]))

theorem runOpts_failLast (K : Kernel) (uid gid : Nat) (l : List Opt) (p : Proc)
    (hp : ∀ c ∈ p.trace, c.settled = true) :
    FailLast (runOpts K uid gid l p).proc.trace ∧
    ((∀ name res, (runOpts K uid gid l p).outcome ≠ some (.checkfail name res)) →
      ∀ c ∈ (runOpts K uid gid l p).proc.trace, c.settled = true) := by
  induction l generalizing p with
  | nil =>
    refine ⟨?_, fun _ => hp⟩
    have := failLast_append hp failLast_nil
    simpa using this
  | cons a l ih =>
    rw [runOpts_cons]
    have hc := step_calls K uid gid a p
    have hs := step_settled K uid gid a p
    cases hst : step K uid gid a p with
    | cont u q =>
      rw [hst] at hc hs
      simp only [proc_cont] at hc
      refine ih q ?_
      intro c hcq
      rw [hc] at hcq
      rcases List.mem_append.mp hcq with h | h
      · exact hp c h
      · exact hs (by simp) c h
    | halt o q =>
      rw [hst] at hc hs
      simp only [proc_halt] at hc ⊢
      rw [hc]
      refine ⟨failLast_append hp (actionCalls_failLast K uid gid _ a), ?_⟩
      intro hno c hcq
      rcases List.mem_append.mp hcq with h | h
      · exact hp c h
      · exact hs hno c h

theorem okSeq_outcome_cases (K : Kernel) (l : List (String × Syscall)) (p : Proc) :
    (okSeq K l p).outcome = none ∨
      ∃ name res, (okSeq K l p).outcome = some (.checkfail name res) := by
  induction l generalizing p with
  | nil => exact Or.inl rfl
  | cons a l ih =>
    obtain ⟨name, s⟩ := a
    rw [okSeq_cons]
    split_ifs with h
    · exact ih _
    · exact Or.inr ⟨name, _, rfl⟩

theorem finish_failLast (K : Kernel) (rest : List String) (p : Proc)
    (hp : ∀ c ∈ p.trace, c.settled = true) :
    FailLast (finish K rest p).proc.trace ∧
    ((∀ name res, (finish K rest p).outcome ≠ some (.checkfail name res)) →
      ∀ c ∈ (finish K rest p).proc.trace, c.settled = true) := by
  cases hr : p.root_set
  · rw [finish_noroot K rest p hr]
    refine ⟨?_, fun _ => hp⟩
    have := failLast_append hp failLast_nil
    simpa using this
  · rw [finish_calls K rest p hr]
    refine ⟨failLast_append hp (failLast_checked K _ _), ?_⟩
    intro hno c hc
    have hnone : (finish K rest p).outcome = none := by
      rw [finish_eq K rest p hr] at hno ⊢
      rcases okSeq_outcome_cases K (finishSeq p.child_dir p.binary rest) p with h | ⟨n, r, h⟩
      · exact h
      · exact absurd h (hno n r)
    rcases List.mem_append.mp hc with h | h
    · exact hp c h
    · exact settled_of_checked_ok ((finish_outcome K rest p hr).mp hnone) c h

/-- Every failure of a call whose result is checked is fatal: in every run, a
call that returned a negative result, other than an `lstat` probe, a `sleep`
and the mount that makes the mount tree private in `-s`, is the last call of
the run, and the run ends through `checkreturn` with that result, that is with
exit status 255. -/
theorem checked_failure_is_fatal (K : Kernel) (opts : List Opt) (rest : List String)
    (pre post : List Call) (c : Call)
    (htr : (run K opts rest).2.trace = pre ++ c :: post)
    (hneg : c.res < 0) (hchk : c.sys.unchecked = false) :
    post = [] ∧ ∃ name, (run K opts rest).1 = .checkfail name c.res := by
  have hc : c.settled = false := by
    simp only [Call.settled, hchk, Bool.false_or, decide_eq_false_iff_not]
    omega
  have hmem : c ∈ (run K opts rest).2.trace := by rw [htr]; simp
  have h0 : ∀ x ∈ (afterUnshare K).trace, x.res < 0 ∨ x.settled = true := by
    intro x hx
    rw [afterUnshare_trace] at hx
    simp only [List.mem_cons, List.mem_singleton, List.not_mem_nil, or_false] at hx
    rcases hx with rfl | rfl | rfl
    · exact Or.inr rfl
    · exact Or.inr rfl
    · by_cases h : 0 ≤ K.ret 2 (.unshare unshare_flags)
      · exact Or.inr (by simp [Call.settled, h])
      · exact Or.inl (by simp only; omega)
  have key : FailLast (run K opts rest).2.trace ∧
      ((∀ name res, (run K opts rest).1 ≠ .checkfail name res) →
        ∀ x ∈ (run K opts rest).2.trace, x.settled = true) ∧
      (∀ name res, (run K opts rest).1 = .checkfail name res →
        (run K opts rest).2.trace.getLast?.map Call.res = some res) := by
    rcases run_cases K opts rest with ⟨hu, hr⟩ | ⟨hu, o, q, hl, hr⟩ | ⟨hu, q, hl, hroot, hr⟩ |
      ⟨hu, q, hl, hroot, hr⟩
    · rw [hr]
      refine ⟨?_, ?_, ?_⟩
      · show FailLast (afterUnshare K).trace
        rw [afterUnshare_trace]
        exact failLast_cons rfl (failLast_cons rfl (by
          intro pre' c' post' heq _
          cases pre' with
          | nil =>
            simp only [List.nil_append, List.cons.injEq] at heq
            exact heq.2.symm
          | cons y pre'' => simp at heq))
      · intro hno
        exact absurd rfl (hno _ _)
      · intro name res heq
        simp only [Prod.mk.injEq, Outcome.checkfail.injEq] at heq
        rw [← heq.2]
        rfl
    · have hp : ∀ x ∈ (afterUnshare K).trace, x.settled = true := by
        intro x hx
        rcases h0 x hx with h | h
        · rw [afterUnshare_trace] at hx
          simp only [List.mem_cons, List.mem_singleton, List.not_mem_nil, or_false] at hx
          rcases hx with rfl | rfl | rfl
          · rfl
          · rfl
          · simp only at h; omega
        · exact h
      have hinv := runOpts_failLast K K.uid K.gid opts (afterUnshare K) hp
      have hf := runOpts_fatal K K.uid K.gid opts (afterUnshare K)
      rw [hl] at hinv hf
      rw [hr]
      refine ⟨hinv.1, ?_, ?_⟩
      · intro hno
        exact hinv.2 (fun name res heq => hno name res (by simpa using heq))
      · intro name res heq
        simp only at heq
        subst heq
        exact hf.2
    · have hp : ∀ x ∈ (afterUnshare K).trace, x.settled = true := by
        intro x hx
        rcases h0 x hx with h | h
        · rw [afterUnshare_trace] at hx
          simp only [List.mem_cons, List.mem_singleton, List.not_mem_nil, or_false] at hx
          rcases hx with rfl | rfl | rfl
          · rfl
          · rfl
          · simp only at h; omega
        · exact h
      have hinv := runOpts_failLast K K.uid K.gid opts (afterUnshare K) hp
      rw [hl] at hinv
      rw [hr]
      refine ⟨hinv.1, fun _ => hinv.2 (by simp), ?_⟩
      intro name res heq
      simp at heq
    · have hp : ∀ x ∈ (afterUnshare K).trace, x.settled = true := by
        intro x hx
        rcases h0 x hx with h | h
        · rw [afterUnshare_trace] at hx
          simp only [List.mem_cons, List.mem_singleton, List.not_mem_nil, or_false] at hx
          rcases hx with rfl | rfl | rfl
          · rfl
          · rfl
          · simp only at h; omega
        · exact h
      have hinv := runOpts_failLast K K.uid K.gid opts (afterUnshare K) hp
      rw [hl] at hinv
      have hq := hinv.2 (by simp)
      simp only [proc_cont] at hq
      have hfin := finish_failLast K rest q hq
      have hff := finish_fatal K rest q
      rw [hr, finish_pair_trace]
      cases hfr : finish K rest q with
      | cont u z =>
        rw [hfr] at hfin
        refine ⟨hfin.1, fun _ => hfin.2 (by simp), ?_⟩
        intro name res heq
        simp at heq
      | halt o z =>
        rw [hfr] at hfin hff
        refine ⟨hfin.1, ?_, ?_⟩
        · intro hno
          exact hfin.2 (fun name res heq => hno name res (by simpa using heq))
        · intro name res heq
          simp only at heq
          subst heq
          exact hff.2
  obtain ⟨hfl, hset, hlast⟩ := key
  have hpost : post = [] := hfl pre c post htr hc
  refine ⟨hpost, ?_⟩
  cases ho : (run K opts rest).1 with
  | errorf msg =>
    have := hset (by rw [ho]; intro name res h; cases h) c hmem
    rw [hc] at this
    exact absurd this (by decide)
  | exec =>
    have := hset (by rw [ho]; intro name res h; cases h) c hmem
    rw [hc] at this
    exact absurd this (by decide)
  | checkfail name res =>
    have := hlast name res ho
    rw [htr, hpost] at this
    have hres : c.res = res := by
      simpa [Option.or] using this
    exact ⟨name, by rw [hres]⟩

/-! ## The claims -/

/-- C1, the claim as stated fails in two ways. With no `-s` and a failing
`unshare` the run ends in the kernel-operation error of `checkreturn`, not in a
configuration error. And with the single action `-D .oldroot` and no `-s` the
call `mkdir(".oldroot", 0755)` is issued, by the action itself. -/
theorem no_root_counterexample :
    (run (Kernel.failAt 1000 1000 S_IFDIR 2) [] ["/bin/sh"]).1 =
        .checkfail "unshare" (-1) ∧
    Syscall.mkdir ".oldroot" 0o755 ∈
        calls (Kernel.allOk 1000 1000 S_IFDIR) [.D ".oldroot"] ["/bin/sh"] ∧
    (run (Kernel.allOk 1000 1000 S_IFDIR) [.D ".oldroot"] ["/bin/sh"]).1 =
        .errorf "-s option is mandatory" := by
  decide

/-- C1, amended: with no `-s` among the options, whatever the kernel answers,
the run ends with exit status 255, through `errorf` (a configuration error) or
through `checkreturn` on a negative result of the call issued last; every call
after `getuid`, `getgid`, `unshare` is a call of one of the actions of the list;
and no `pivot_root`, `umount2`, `rmdir`, `capset` or `execv` is issued. -/
theorem no_root_never_finalizes (K : Kernel) (opts : List Opt) (rest : List String)
    (h : ∀ path, Opt.s path ∉ opts) :
    (run K opts rest).1.status = some 255 ∧
    ((∃ msg, (run K opts rest).1 = .errorf msg) ∨
      ∃ name res s, (run K opts rest).1 = .checkfail name res ∧ res < 0 ∧
        (run K opts rest).2.trace.getLast? = some ⟨s, res⟩) ∧
    (∃ ext, (run K opts rest).2.trace =
        [⟨.getuid, K.uid⟩, ⟨.getgid, K.gid⟩,
          ⟨.unshare unshare_flags, K.ret 2 (.unshare unshare_flags)⟩] ++ ext ∧
      ∀ c ∈ ext, ∃ a ∈ opts, ∃ p,
        c ∈ (step K K.uid K.gid a p).proc.trace.drop p.trace.length) ∧
    ∀ c ∈ (run K opts rest).2.trace,
      (∀ a b, c.sys ≠ .pivot_root a b) ∧ (∀ a b, c.sys ≠ .umount2 a b) ∧
      (∀ a, c.sys ≠ .rmdir a) ∧ (∀ v i d, c.sys ≠ .capset v i d) ∧
      (∀ a b, c.sys ≠ .execv a b) := by
  have hany := any_isRoot_of_no_s opts h
  have hout : (run K opts rest).1.status = some 255 ∧
      ((∃ msg, (run K opts rest).1 = .errorf msg) ∨
        ∃ name res s, (run K opts rest).1 = .checkfail name res ∧ res < 0 ∧
          (run K opts rest).2.trace.getLast? = some ⟨s, res⟩) := by
    rcases run_cases K opts rest with ⟨hu, hr⟩ | ⟨hu, o, q, hl, hr⟩ | ⟨hu, q, hl, hroot, hr⟩ |
      ⟨hu, q, hl, hroot, hr⟩
    · rw [hr]
      exact ⟨rfl, Or.inr ⟨_, _, .unshare unshare_flags, rfl, hu, rfl⟩⟩
    · have hf := runOpts_fatal K K.uid K.gid opts (afterUnshare K)
      rw [hl] at hf
      rw [hr]
      cases o with
      | errorf msg => exact ⟨rfl, Or.inl ⟨msg, rfl⟩⟩
      | checkfail name res =>
        obtain ⟨hneg, hs⟩ := hf
        cases hlast : q.trace.getLast? with
        | none => rw [hlast] at hs; simp at hs
        | some c =>
          rw [hlast] at hs
          simp only [Option.map_some', Option.some.injEq] at hs
          exact ⟨rfl, Or.inr ⟨name, res, c.sys, rfl, hneg, by rw [← hs]⟩⟩
      | exec => exact absurd hf (by simp [Res.Fatal])
    · rw [hr]
      exact ⟨rfl, Or.inl ⟨_, rfl⟩⟩
    · have := (root_set_after_loop K opts q hl).1
      rw [hany, hroot] at this
      exact absurd this (by decide)
  obtain ⟨ext, fin, ht, hmem, hfin, _⟩ := run_trace K opts rest
  have hfin0 : fin = [] := by
    rcases hfin with h0 | ⟨q, hl, hroot, _, _⟩
    · exact h0
    · have := (root_set_after_loop K opts q hl).1
      rw [hany, hroot] at this
      exact absurd this (by decide)
  rw [hfin0, List.append_nil, afterUnshare_trace] at ht
  refine ⟨hout.1, hout.2, ⟨ext, ht, ?_⟩, ?_⟩
  · intro c hc
    obtain ⟨a, ha, n, hn⟩ := hmem c hc
    refine ⟨a, ha, { Proc.init with trace := List.replicate n ⟨.getuid, 0⟩ }, ?_⟩
    rw [step_calls, List.drop_left]
    simpa using hn
  intro c hc
  rw [ht] at hc
  rcases List.mem_append.mp hc with h1 | h2
  · simp only [List.mem_cons, List.mem_singleton, List.not_mem_nil, or_false] at h1
    rcases h1 with rfl | rfl | rfl <;> simp
  · obtain ⟨a, _, n, hn⟩ := hmem c h2
    have hin := actionCalls_inLoop K K.uid K.gid n a c hn
    refine ⟨?_, ?_, ?_, ?_, ?_⟩ <;> intros <;> intro heq <;> rw [heq] at hin <;>
      simp [Syscall.inLoop] at hin

/-- C1, amended, at the options `-D .oldroot` with a kernel that fails no call. -/
theorem no_root_never_finalizes_witness :
    (∀ path, Opt.s path ∉ [Opt.D ".oldroot"]) ∧
    (run (Kernel.allOk 1000 1000 S_IFDIR) [.D ".oldroot"] ["/bin/sh"]).1.status = some 255 ∧
    ∀ c ∈ (run (Kernel.allOk 1000 1000 S_IFDIR) [.D ".oldroot"] ["/bin/sh"]).2.trace,
      (∀ a b, c.sys ≠ .pivot_root a b) ∧ (∀ a b, c.sys ≠ .umount2 a b) ∧
      (∀ a, c.sys ≠ .rmdir a) ∧ (∀ v i d, c.sys ≠ .capset v i d) ∧
      (∀ a b, c.sys ≠ .execv a b) :=
  ⟨by simp,
   (no_root_never_finalizes (Kernel.allOk 1000 1000 S_IFDIR) [.D ".oldroot"] ["/bin/sh"]
      (by simp)).1,
   (no_root_never_finalizes (Kernel.allOk 1000 1000 S_IFDIR) [.D ".oldroot"] ["/bin/sh"]
      (by simp)).2.2.2⟩

/-- C2, the code at the failing input: with the options `-s /srv/sbx` and a
kernel in which only the call `mount("none", "/", NULL, MS_REC|MS_PRIVATE,
NULL)` fails (it is the call number 3 of the run), the run is not ended: ten
more calls are issued and the run ends in `execv`. -/
theorem make_private_mount_unchecked :
    (run (Kernel.failAt 1000 1000 S_IFDIR 3) [.s "/srv/sbx"] ["/bin/sh"]).1 = .exec ∧
    (run (Kernel.failAt 1000 1000 S_IFDIR 3) [.s "/srv/sbx"] ["/bin/sh"]).2.trace =
      [⟨.getuid, 1000⟩, ⟨.getgid, 1000⟩, ⟨.unshare unshare_flags, 0⟩,
       ⟨.mount "none" "/" none (MS_REC ||| MS_PRIVATE) none, -1⟩,
       ⟨.mount "/srv/sbx" "/srv/sbx" none (MS_BIND ||| MS_NOSUID) none, 0⟩,
       ⟨.chdir "/srv/sbx", 0⟩,
       ⟨.mkdir ".oldroot" 0o755, 0⟩,
       ⟨.pivot_root "." ".oldroot", 0⟩,
       ⟨.umount2 ".oldroot" MNT_DETACH, 0⟩,
       ⟨.rmdir ".oldroot", 0⟩,
       ⟨.mount "/" "/" none
         (MS_RDONLY ||| MS_NOSUID ||| MS_REMOUNT ||| MS_NOATIME ||| MS_BIND ||| MS_RDONLY)
         none, 0⟩,
       ⟨capsetCall, 0⟩,
       ⟨.execv (some "/bin/sh") ["/bin/sh"], 0⟩] := by
  decide

/-- C3: in every run, whatever the options, the first three calls are `getuid`,
`getgid` and an `unshare` asking for the mount, UTS, IPC, user and network
namespaces; if that `unshare` fails no call follows it; and none of the calls
after it is an `unshare`. So `unshare` is issued exactly once, before any mount,
`mkdir`, `open`, `write`, `chdir`, identity switch, `pivot_root`, `capset` or
`execv`. -/
theorem unshare_first_and_once (K : Kernel) (opts : List Opt) (rest : List String) :
    ∃ tail, (run K opts rest).2.trace =
        ⟨.getuid, K.uid⟩ :: ⟨.getgid, K.gid⟩ ::
          ⟨.unshare (CLONE_NEWNS ||| CLONE_NEWUTS ||| CLONE_NEWIPC ||| CLONE_NEWUSER |||
              CLONE_NEWNET), K.ret 2 (.unshare unshare_flags)⟩ :: tail ∧
      (0 ≤ K.ret 2 (.unshare unshare_flags) ∨ tail = []) ∧
      ∀ c ∈ tail, ∀ flags, c.sys ≠ .unshare flags := by
  obtain ⟨ext, fin, ht, hmem, hfin, hu⟩ := run_trace K opts rest
  refine ⟨ext ++ fin, ?_, ?_, ?_⟩
  · rw [ht, afterUnshare_trace]; simp [unshare_flags]
  · rcases hu with hu | ⟨h1, h2⟩
    · exact Or.inl hu
    · exact Or.inr (by rw [h1, h2]; rfl)
  · intro c hc flags heq
    rcases List.mem_append.mp hc with h | h
    · obtain ⟨a, _, n, hn⟩ := hmem c h
      have := actionCalls_inLoop K K.uid K.gid n a c hn
      rw [heq] at this
      simp [Syscall.inLoop] at this
    · rcases hfin with h0 | ⟨q, _, _, _, hq⟩
      · rw [h0] at h; simp at h
      · rw [hq] at h
        have := mem_checked h
        rw [heq] at this
        cases hd : q.child_dir <;>
          simp [finalizeCalls, handoffCalls, capsetCall, hd] at this

/-- C4: in every run, a call of `execv` comes right after a `capset` call that
returned a non-negative result, made with the version 3 header, pid 0 and two
data elements whose effective, permitted and inheritable words are all zero;
and when a `capset` call has failed the run contains no `execv`. -/
theorem execv_right_after_capset (K : Kernel) (opts : List Opt) (rest : List String) :
    (∀ pre post path argv r,
      (run K opts rest).2.trace = pre ++ ⟨.execv path argv, r⟩ :: post →
      ∃ pre' rc, pre = pre' ++
          [⟨.capset _LINUX_CAPABILITY_VERSION_3 0 [⟨0, 0, 0⟩, ⟨0, 0, 0⟩], rc⟩] ∧ 0 ≤ rc) ∧
    (∀ c ∈ (run K opts rest).2.trace, (∃ v i d, c.sys = .capset v i d) → c.res < 0 →
      ∀ c' ∈ (run K opts rest).2.trace, ∀ path argv, c'.sys ≠ .execv path argv) := by
  obtain ⟨T, hT, hshape⟩ := run_handoff_shape K opts rest
  have hnoT : ∀ c ∈ T, (∀ path argv, c.sys ≠ .execv path argv) ∧
      ∀ v i d, c.sys ≠ .capset v i d := by
    intro c hc
    have := hT c hc
    constructor <;> intros <;> intro heq <;> rw [heq] at this <;>
      simp [Syscall.isHandoff] at this
  constructor
  · intro pre post path argv r htr
    rcases hshape with h | ⟨rc, hrc, h⟩ | ⟨rc, r', bin, hrc, h⟩
    · have hm : (⟨.execv path argv, r⟩ : Call) ∈ T := by
        rw [← h, htr]; simp
      exact absurd rfl ((hnoT _ hm).1 path argv)
    · have hm : (⟨.execv path argv, r⟩ : Call) ∈ T ++ [⟨capsetCall, rc⟩] := by
        rw [← h, htr]; simp
      rcases List.mem_append.mp hm with h1 | h1
      · exact absurd rfl ((hnoT _ h1).1 path argv)
      · simp [capsetCall] at h1
    · rw [htr] at h
      have h' : (T ++ [⟨capsetCall, rc⟩]) ++ [⟨.execv bin rest, r'⟩] =
          pre ++ ⟨.execv path argv, r⟩ :: post := by
        rw [h]; simp
      have hP : ∀ c ∈ T ++ [(⟨capsetCall, rc⟩ : Call)], ¬ (c.sys.isHandoff = true ∧
          ∃ p a, c.sys = .execv p a) := by
        intro c hc
        rcases List.mem_append.mp hc with h1 | h1
        · rw [hT c h1]; simp
        · simp only [List.mem_singleton] at h1
          rw [h1]; simp [capsetCall]
      obtain ⟨hpre, _, _⟩ := split_at_last
        (P := fun c : Call => c.sys.isHandoff = true ∧ ∃ p a, c.sys = .execv p a)
        (e := ⟨.execv path argv, r⟩) hP ⟨rfl, path, argv, rfl⟩ h'
      exact ⟨T, rc, by rw [hpre]; rfl, hrc⟩
  · intro c hc hcap hneg c' hc' path argv heq
    obtain ⟨v, i, d, hv⟩ := hcap
    rcases hshape with h | ⟨rc, hrc, h⟩ | ⟨rc, r', bin, hrc, h⟩
    · rw [h] at hc'
      exact (hnoT c' hc').1 path argv heq
    · rw [h] at hc'
      rcases List.mem_append.mp hc' with h1 | h1
      · exact (hnoT c' h1).1 path argv heq
      · simp only [List.mem_singleton] at h1
        rw [h1] at heq
        simp [capsetCall] at heq
    · rw [h] at hc
      rcases List.mem_append.mp hc with h1 | h1
      · exact (hnoT c h1).2 v i d hv
      · simp only [List.mem_cons, List.mem_singleton, List.not_mem_nil, or_false] at h1
        rcases h1 with h1 | h1
        · rw [h1] at hneg
          simp only at hneg
          omega
        · rw [h1] at hv
          simp at hv

/-- C4 at the options `-s /srv/sbx` with a kernel that fails no call: the last
call is `execv`, the call before it the `capset`. -/
theorem execv_right_after_capset_witness :
    (run (Kernel.allOk 1000 1000 S_IFDIR) [.s "/srv/sbx"] ["/bin/sh"]).2.trace =
      (run (Kernel.allOk 1000 1000 S_IFDIR) [.s "/srv/sbx"] ["/bin/sh"]).2.trace.dropLast ++
        ⟨.execv (some "/bin/sh") ["/bin/sh"], 0⟩ :: [] ∧
    ∃ pre' rc,
      (run (Kernel.allOk 1000 1000 S_IFDIR) [.s "/srv/sbx"] ["/bin/sh"]).2.trace.dropLast =
        pre' ++ [⟨.capset _LINUX_CAPABILITY_VERSION_3 0 [⟨0, 0, 0⟩, ⟨0, 0, 0⟩], rc⟩] ∧
      0 ≤ rc :=
  ⟨by decide,
   (execv_right_after_capset (Kernel.allOk 1000 1000 S_IFDIR) [.s "/srv/sbx"] ["/bin/sh"]).1
     _ [] (some "/bin/sh") ["/bin/sh"] 0 (by decide)⟩

/-- C5: when the option loop runs to its end, the calls issued after `unshare`
and before the tail of `main` are the calls of the first action, then those of
the second, and so on in list order, the calls of an action being those that its
`case` of the `switch` issues; the calls for a list `l1 ++ l2` are those for
`l1` followed by those for `l2`. What follows them, if anything, are the calls
of the tail of `main`, which start with the root pivot. -/
theorem actions_in_list_order (K : Kernel) (opts : List Opt) (rest : List String)
    (hloop : (assemble K opts Proc.init).outcome = none) :
    (∃ fin, (run K opts rest).2.trace =
        [⟨.getuid, K.uid⟩, ⟨.getgid, K.gid⟩,
          ⟨.unshare unshare_flags, K.ret 2 (.unshare unshare_flags)⟩] ++
        concatCalls K K.uid K.gid 3 opts ++ fin ∧
      (fin = [] ∨ ∃ child_dir binary, fin =
        checked K (3 + (concatCalls K K.uid K.gid 3 opts).length)
          (finalizeCalls ++ handoffCalls child_dir binary rest))) ∧
    (∀ a p, (step K K.uid K.gid a p).proc.trace =
      p.trace ++ actionCalls K K.uid K.gid p.trace.length a) ∧
    (∀ a l n, concatCalls K K.uid K.gid n (a :: l) =
      actionCalls K K.uid K.gid n a ++
        concatCalls K K.uid K.gid (n + (actionCalls K K.uid K.gid n a).length) l) ∧
    (∀ l1 l2 n, concatCalls K K.uid K.gid n (l1 ++ l2) =
      concatCalls K K.uid K.gid n l1 ++
        concatCalls K K.uid K.gid (n + (concatCalls K K.uid K.gid n l1).length) l2) := by
  refine ⟨?_, fun a p => step_calls K K.uid K.gid a p, fun a l n => rfl,
    fun l1 l2 n => concatCalls_append K K.uid K.gid n l1 l2⟩
  have hu : 0 ≤ K.ret 2 (.unshare unshare_flags) := by
    by_contra hneg
    rw [assemble_apply, if_neg hneg] at hloop
    simp at hloop
  rw [assemble_of_unshare_ok K opts hu] at hloop
  have hcalls := runOpts_calls K K.uid K.gid opts (afterUnshare K) hloop
  rw [afterUnshare_trace] at hcalls
  simp only [List.length_cons, List.length_nil, Nat.zero_add, Nat.reduceAdd] at hcalls
  rcases run_cases K opts rest with ⟨hu', hr⟩ | ⟨_, o, q, hl, hr⟩ | ⟨_, q, hl, hroot, hr⟩ |
    ⟨_, q, hl, hroot, hr⟩
  · omega
  · rw [hl] at hloop; simp at hloop
  · rw [hl] at hcalls
    simp only [proc_cont] at hcalls
    refine ⟨[], ?_, Or.inl rfl⟩
    rw [hr, List.append_nil]
    exact hcalls
  · rw [hl] at hcalls
    simp only [proc_cont] at hcalls
    refine ⟨_, ?_, Or.inr ⟨q.child_dir, q.binary, rfl⟩⟩
    have hlen : q.trace.length = 3 + (concatCalls K K.uid K.gid 3 opts).length := by
      rw [hcalls, List.length_append]; rfl
    rw [hr, finish_pair_trace, finish_calls K rest q hroot, hlen, hcalls]

/-- C5 at the end-to-end scenario `-s /srv/sbx -b /usr=/srv/sbx/usr
-t /srv/sbx/tmp -u 1000 -g 1000 -d /` with target `/bin/sh`, the invoking user
1000:1000, `/usr` a directory and no call failing: the calls of the actions, in
list order. -/
theorem actions_in_list_order_witness :
    (assemble (Kernel.allOk 1000 1000 S_IFDIR) scenario Proc.init).outcome = none ∧
    (∃ fin, (run (Kernel.allOk 1000 1000 S_IFDIR) scenario ["/bin/sh"]).2.trace =
        [⟨.getuid, 1000⟩, ⟨.getgid, 1000⟩, ⟨.unshare unshare_flags, 0⟩] ++
        concatCalls (Kernel.allOk 1000 1000 S_IFDIR) 1000 1000 3 scenario ++ fin) ∧
    (concatCalls (Kernel.allOk 1000 1000 S_IFDIR) 1000 1000 3 scenario).map Call.sys =
      [.mount "none" "/" none (MS_REC ||| MS_PRIVATE) none,
       .mount "/srv/sbx" "/srv/sbx" none (MS_BIND ||| MS_NOSUID) none,
       .chdir "/srv/sbx",
       .stat "/usr",
       .lstat "/srv/sbx/usr",
       .mount "/usr" "/srv/sbx/usr" none (MS_REC ||| MS_BIND) none,
       .lstat "/srv/sbx/tmp",
       .mount "sandbox-dev" "/srv/sbx/tmp" (some "tmpfs")
         (MS_NOSUID ||| MS_NOEXEC ||| MS_NOATIME) (some "size=64k,nr_inodes=16,mode=755"),
       .open_ "/proc/self/uid_map" O_WRONLY none,
       .write 0 "1000 1000 1\n" 12,
       .close 0,
       .setresuid 1000 1000 1000,
       .open_ "/proc/self/gid_map" O_WRONLY none,
       .write 0 "1000 1000 1\n" 12,
       .close 0,
       .setresgid 1000 1000 1000] := by
  refine ⟨by decide!, ?_, by decide!⟩
  obtain ⟨fin, h, _⟩ := (actions_in_list_order (Kernel.allOk 1000 1000 S_IFDIR) scenario
    ["/bin/sh"] (by decide!)).1
  exact ⟨fin, h⟩

/-- C6, the claim as stated fails: for the action `-b /etc/hosts=/srv/sbx/hosts`
with a regular file as source and no call failing, the destination is opened
with `O_WRONLY|O_CREAT`, without `O_TRUNC`, so a destination that held
`127.0.0.1 localhost` before the action still holds it afterwards: it is not
an empty file. -/
theorem bind_file_counterexample :
    (step (Kernel.allOk 1000 1000 S_IFREG) 1000 1000
        (.b "/etc/hosts=/srv/sbx/hosts") Proc.init).outcome = none ∧
    (step (Kernel.allOk 1000 1000 S_IFREG) 1000 1000
        (.b "/etc/hosts=/srv/sbx/hosts") Proc.init).proc.trace =
      [⟨.stat "/etc/hosts", 0⟩,
       ⟨.open_ "/srv/sbx/hosts" (O_WRONLY ||| O_CREAT) (some 0o666), 0⟩,
       ⟨.close 0, 0⟩,
       ⟨.mount "/etc/hosts" "/srv/sbx/hosts" none MS_BIND none, 0⟩] ∧
    (O_WRONLY ||| O_CREAT) &&& O_TRUNC = 0 ∧
    contentAfter "/srv/sbx/hosts" (some "127.0.0.1 localhost\n")
        (step (Kernel.allOk 1000 1000 S_IFREG) 1000 1000
          (.b "/etc/hosts=/srv/sbx/hosts") Proc.init).proc.trace =
      some "127.0.0.1 localhost\n" ∧
    contentAfter "/srv/sbx/hosts" (some "127.0.0.1 localhost\n")
        (step (Kernel.allOk 1000 1000 S_IFREG) 1000 1000
          (.b "/etc/hosts=/srv/sbx/hosts") Proc.init).proc.trace ≠ some "" := by
  decide

/-- C6, amended: the action `-b source=destination`, the source having no `=`.
When `stat` reports a directory, `lstat` probes the destination, `mkdir` with
mode 0755 is issued exactly when that probe fails, and the source is mounted on
the destination with `MS_REC|MS_BIND`. When `stat` reports a regular file, the
destination is opened with `O_WRONLY|O_CREAT` and mode 0666 and closed, and the
source is mounted on it with `MS_BIND` alone; the open has no `O_TRUNC`, so it
creates the destination empty when it is missing and leaves an existing
destination with the content it had. In each case, when these calls succeed the
action goes on to the next option. And whatever the kernel answers, a negative
result of any call of the action other than the `lstat` probe ends the run at
that call with exit status 255. -/
theorem bind_mount_calls (K : Kernel) (uid gid : Nat) (src dst : String) (p : Proc)
    (hsrc : '=' ∉ src.data) :
    (0 ≤ K.ret p.trace.length (.stat src) → S_ISDIR (K.st_mode p.trace.length) = true →
      0 ≤ K.ret (p.trace.length + 1) (.lstat dst) →
      0 ≤ K.ret (p.trace.length + 2) (.mount src dst none (MS_REC ||| MS_BIND) none) →
      (step K uid gid (.b (src ++ "=" ++ dst)) p).outcome = none ∧
      (step K uid gid (.b (src ++ "=" ++ dst)) p).proc.trace = p.trace ++
        [⟨.stat src, K.ret p.trace.length (.stat src)⟩,
         ⟨.lstat dst, K.ret (p.trace.length + 1) (.lstat dst)⟩,
         ⟨.mount src dst none (MS_REC ||| MS_BIND) none,
           K.ret (p.trace.length + 2) (.mount src dst none (MS_REC ||| MS_BIND) none)⟩]) ∧
    (0 ≤ K.ret p.trace.length (.stat src) → S_ISDIR (K.st_mode p.trace.length) = true →
      K.ret (p.trace.length + 1) (.lstat dst) < 0 →
      0 ≤ K.ret (p.trace.length + 2) (.mkdir dst 0o755) →
      0 ≤ K.ret (p.trace.length + 3) (.mount src dst none (MS_REC ||| MS_BIND) none) →
      (step K uid gid (.b (src ++ "=" ++ dst)) p).outcome = none ∧
      (step K uid gid (.b (src ++ "=" ++ dst)) p).proc.trace = p.trace ++
        [⟨.stat src, K.ret p.trace.length (.stat src)⟩,
         ⟨.lstat dst, K.ret (p.trace.length + 1) (.lstat dst)⟩,
         ⟨.mkdir dst 0o755, K.ret (p.trace.length + 2) (.mkdir dst 0o755)⟩,
         ⟨.mount src dst none (MS_REC ||| MS_BIND) none,
           K.ret (p.trace.length + 3) (.mount src dst none (MS_REC ||| MS_BIND) none)⟩]) ∧
    (0 ≤ K.ret p.trace.length (.stat src) → S_ISREG (K.st_mode p.trace.length) = true →
      0 ≤ K.ret (p.trace.length + 1) (.open_ dst (O_WRONLY ||| O_CREAT) (some 0o666)) →
      0 ≤ K.ret (p.trace.length + 2)
        (.close (K.ret (p.trace.length + 1) (.open_ dst (O_WRONLY ||| O_CREAT) (some 0o666)))) →
      0 ≤ K.ret (p.trace.length + 3) (.mount src dst none MS_BIND none) →
      (step K uid gid (.b (src ++ "=" ++ dst)) p).outcome = none ∧
      (step K uid gid (.b (src ++ "=" ++ dst)) p).proc.trace = p.trace ++
        [⟨.stat src, K.ret p.trace.length (.stat src)⟩,
         ⟨.open_ dst (O_WRONLY ||| O_CREAT) (some 0o666),
           K.ret (p.trace.length + 1) (.open_ dst (O_WRONLY ||| O_CREAT) (some 0o666))⟩,
         ⟨.close (K.ret (p.trace.length + 1) (.open_ dst (O_WRONLY ||| O_CREAT) (some 0o666))),
           K.ret (p.trace.length + 2)
             (.close (K.ret (p.trace.length + 1)
               (.open_ dst (O_WRONLY ||| O_CREAT) (some 0o666))))⟩,
         ⟨.mount src dst none MS_BIND none,
           K.ret (p.trace.length + 3) (.mount src dst none MS_BIND none)⟩]) ∧
    (∀ c ∈ (step K uid gid (.b (src ++ "=" ++ dst)) p).proc.trace.drop p.trace.length,
      c.res < 0 → (∀ path, c.sys ≠ .lstat path) →
      (∃ name, (step K uid gid (.b (src ++ "=" ++ dst)) p).outcome =
          some (.checkfail name c.res)) ∧
      (step K uid gid (.b (src ++ "=" ++ dst)) p).proc.trace.getLast? = some c) ∧
    (0 ≤ K.ret p.trace.length (.stat src) → S_ISREG (K.st_mode p.trace.length) = true →
      0 ≤ K.ret (p.trace.length + 1) (.open_ dst (O_WRONLY ||| O_CREAT) (some 0o666)) →
      0 ≤ K.ret (p.trace.length + 2)
        (.close (K.ret (p.trace.length + 1) (.open_ dst (O_WRONLY ||| O_CREAT) (some 0o666)))) →
      0 ≤ K.ret (p.trace.length + 3) (.mount src dst none MS_BIND none) →
      contentAfter dst none
          ((step K uid gid (.b (src ++ "=" ++ dst)) p).proc.trace.drop p.trace.length) =
        some "" ∧
      ∀ content, contentAfter dst (some content)
          ((step K uid gid (.b (src ++ "=" ++ dst)) p).proc.trace.drop p.trace.length) =
        some content) := by
  have hsp := splitEq_concat src dst hsrc
  have hfile : 0 ≤ K.ret p.trace.length (.stat src) →
      S_ISREG (K.st_mode p.trace.length) = true →
      0 ≤ K.ret (p.trace.length + 1) (.open_ dst (O_WRONLY ||| O_CREAT) (some 0o666)) →
      0 ≤ K.ret (p.trace.length + 2)
        (.close (K.ret (p.trace.length + 1) (.open_ dst (O_WRONLY ||| O_CREAT) (some 0o666)))) →
      0 ≤ K.ret (p.trace.length + 3) (.mount src dst none MS_BIND none) →
      (step K uid gid (.b (src ++ "=" ++ dst)) p).outcome = none ∧
      (step K uid gid (.b (src ++ "=" ++ dst)) p).proc.trace = p.trace ++
        [⟨.stat src, K.ret p.trace.length (.stat src)⟩,
         ⟨.open_ dst (O_WRONLY ||| O_CREAT) (some 0o666),
           K.ret (p.trace.length + 1) (.open_ dst (O_WRONLY ||| O_CREAT) (some 0o666))⟩,
         ⟨.close (K.ret (p.trace.length + 1) (.open_ dst (O_WRONLY ||| O_CREAT) (some 0o666))),
           K.ret (p.trace.length + 2)
             (.close (K.ret (p.trace.length + 1)
               (.open_ dst (O_WRONLY ||| O_CREAT) (some 0o666))))⟩,
         ⟨.mount src dst none MS_BIND none,
           K.ret (p.trace.length + 3) (.mount src dst none MS_BIND none)⟩] := by
    intro h1 h2 h3 h4 h5
    have h2' := S_ISDIR_of_S_ISREG _ h2
    cases hv : p.verbose <;> simp [step, hsp, hv, h1, h2', h3, h4, h5]
  have hT : (O_WRONLY ||| O_CREAT) &&& O_TRUNC = 0 := by decide
  have hC : ¬ (O_WRONLY ||| O_CREAT) &&& O_CREAT = 0 := by decide
  refine ⟨?_, ?_, hfile, ?_, ?_⟩
  · intro h1 h2 h3 h4
    have h3' : ¬ K.ret (p.trace.length + 1) (.lstat dst) < 0 := by omega
    cases hv : p.verbose <;> simp [step, hsp, hv, h1, h2, h3', h4]
  · intro h1 h2 h3 h4 h5
    cases hv : p.verbose <;> simp [step, hsp, hv, h1, h2, h3, h4, h5]
  · intro c hc hneg hnl
    rw [step_calls, List.drop_left] at hc
    exact bind_failure_fatal K uid gid _ src dst p hsp c hc hneg hnl
  · intro h1 h2 h3 h4 h5
    rw [(hfile h1 h2 h3 h4 h5).2, List.drop_left]
    refine ⟨?_, fun content => ?_⟩
    · simp only [contentAfter, h3, and_self, if_true, openContent, hC, if_false]
    · simp only [contentAfter, h3, and_self, if_true, openContent, hT]

/-- C6, amended, at two actions with no call failing: `-b /usr=/srv/sbx/usr`,
the source a directory and the destination present; and
`-b /etc/hosts=/srv/sbx/hosts`, the source a regular file, where a destination
holding `127.0.0.1 localhost` keeps it. -/
theorem bind_mount_calls_witness :
    '=' ∉ "/usr".data ∧
    ((step (Kernel.allOk 1000 1000 S_IFDIR) 1000 1000
        (.b ("/usr" ++ "=" ++ "/srv/sbx/usr")) Proc.init).outcome = none ∧
     (step (Kernel.allOk 1000 1000 S_IFDIR) 1000 1000
        (.b ("/usr" ++ "=" ++ "/srv/sbx/usr")) Proc.init).proc.trace =
      [⟨.stat "/usr", 0⟩, ⟨.lstat "/srv/sbx/usr", 0⟩,
       ⟨.mount "/usr" "/srv/sbx/usr" none (MS_REC ||| MS_BIND) none, 0⟩]) ∧
    '=' ∉ "/etc/hosts".data ∧
    S_ISREG S_IFREG = true ∧
    ((step (Kernel.allOk 1000 1000 S_IFREG) 1000 1000
        (.b ("/etc/hosts" ++ "=" ++ "/srv/sbx/hosts")) Proc.init).outcome = none ∧
     (step (Kernel.allOk 1000 1000 S_IFREG) 1000 1000
        (.b ("/etc/hosts" ++ "=" ++ "/srv/sbx/hosts")) Proc.init).proc.trace =
      [⟨.stat "/etc/hosts", 0⟩,
       ⟨.open_ "/srv/sbx/hosts" (O_WRONLY ||| O_CREAT) (some 0o666), 0⟩,
       ⟨.close 0, 0⟩,
       ⟨.mount "/etc/hosts" "/srv/sbx/hosts" none MS_BIND none, 0⟩]) ∧
    contentAfter "/srv/sbx/hosts" (some "127.0.0.1 localhost\n")
        ((step (Kernel.allOk 1000 1000 S_IFREG) 1000 1000
          (.b ("/etc/hosts" ++ "=" ++ "/srv/sbx/hosts")) Proc.init).proc.trace.drop
            Proc.init.trace.length) =
      some "127.0.0.1 localhost\n" :=
  ⟨by decide,
   (bind_mount_calls (Kernel.allOk 1000 1000 S_IFDIR) 1000 1000 "/usr" "/srv/sbx/usr"
      Proc.init (by decide)).1 (le_refl _) (by decide) (le_refl _) (le_refl _),
   by decide, by decide,
   (bind_mount_calls (Kernel.allOk 1000 1000 S_IFREG) 1000 1000 "/etc/hosts"
      "/srv/sbx/hosts" Proc.init (by decide)).2.2.1 (le_refl _) (by decide) (le_refl _)
      (le_refl _) (le_refl _),
   ((bind_mount_calls (Kernel.allOk 1000 1000 S_IFREG) 1000 1000 "/etc/hosts"
      "/srv/sbx/hosts" Proc.init (by decide)).2.2.2.2 (le_refl _) (by decide) (le_refl _)
      (le_refl _) (le_refl _)).2 "127.0.0.1 localhost\n"⟩

/-- C7, the code at the failing input: for the invoking user 4294967294 and the
options `-s /srv/sbx -u 1000` the record written to `/proc/self/uid_map` is
`1000 -2 1`: the `uid_t` is printed with `%d`. For the invoking user 1000 the
record is `1000 1000 1`. -/
theorem uid_record_printed_signed :
    Syscall.write 0 "1000 -2 1\n" 10 ∈
      calls (Kernel.allOk 4294967294 1000 S_IFDIR) [.s "/srv/sbx", .u "1000"] ["/bin/sh"] ∧
    Syscall.write 0 "1000 4294967294 1\n" 18 ∉
      calls (Kernel.allOk 4294967294 1000 S_IFDIR) [.s "/srv/sbx", .u "1000"] ["/bin/sh"] ∧
    Syscall.write 0 "1000 1000 1\n" 12 ∈
      calls (Kernel.allOk 1000 1000 S_IFDIR) [.s "/srv/sbx", .u "1000"] ["/bin/sh"] := by
  decide!

/-- C8: when the option loop has ended with `root_set`, the calls issued next
are `mkdir(".oldroot", 0755)`, `pivot_root(".", ".oldroot")`,
`umount2(".oldroot", MNT_DETACH)`, `rmdir(".oldroot")` and the remount of `/`,
in this order with nothing between them, each issued only if the ones before it
succeeded. If one of them fails it is the last call of the run, which ends with
status 255. If all succeed, all five are issued and only `chdir`, `capset` and
`execv` may follow. The flags of the remount include `MS_REMOUNT`, `MS_BIND`,
`MS_RDONLY`, `MS_NOSUID` and `MS_NOATIME`. -/
theorem finalizer_sequence (K : Kernel) (opts : List Opt) (rest : List String)
    (hloop : (assemble K opts Proc.init).outcome = none)
    (hroot : (assemble K opts Proc.init).proc.root_set = true) :
    ∃ flags tail,
      (run K opts rest).2.trace =
        (assemble K opts Proc.init).proc.trace ++
          checked K (assemble K opts Proc.init).proc.trace.length
            [.mkdir ".oldroot" 0o755, .pivot_root "." ".oldroot",
             .umount2 ".oldroot" MNT_DETACH, .rmdir ".oldroot",
             .mount "/" "/" none flags none] ++ tail ∧
      (∀ f ∈ [MS_REMOUNT, MS_BIND, MS_RDONLY, MS_NOSUID, MS_NOATIME], flags &&& f = f) ∧
      ((∃ c ∈ checked K (assemble K opts Proc.init).proc.trace.length
            [.mkdir ".oldroot" 0o755, .pivot_root "." ".oldroot",
             .umount2 ".oldroot" MNT_DETACH, .rmdir ".oldroot",
             .mount "/" "/" none flags none], c.res < 0) →
        tail = [] ∧ (run K opts rest).1.status = some 255) ∧
      (∀ c ∈ checked K (assemble K opts Proc.init).proc.trace.length
            [.mkdir ".oldroot" 0o755, .pivot_root "." ".oldroot",
             .umount2 ".oldroot" MNT_DETACH, .rmdir ".oldroot",
             .mount "/" "/" none flags none], c.res < 0 →
        (checked K (assemble K opts Proc.init).proc.trace.length
            [.mkdir ".oldroot" 0o755, .pivot_root "." ".oldroot",
             .umount2 ".oldroot" MNT_DETACH, .rmdir ".oldroot",
             .mount "/" "/" none flags none]).getLast? = some c) ∧
      ((∀ c ∈ checked K (assemble K opts Proc.init).proc.trace.length
            [.mkdir ".oldroot" 0o755, .pivot_root "." ".oldroot",
             .umount2 ".oldroot" MNT_DETACH, .rmdir ".oldroot",
             .mount "/" "/" none flags none], 0 ≤ c.res) →
        (checked K (assemble K opts Proc.init).proc.trace.length
            [.mkdir ".oldroot" 0o755, .pivot_root "." ".oldroot",
             .umount2 ".oldroot" MNT_DETACH, .rmdir ".oldroot",
             .mount "/" "/" none flags none]).map Call.sys =
          [.mkdir ".oldroot" 0o755, .pivot_root "." ".oldroot",
             .umount2 ".oldroot" MNT_DETACH, .rmdir ".oldroot",
             .mount "/" "/" none flags none]) ∧
      ∀ c ∈ tail, (∃ dir, c.sys = .chdir dir) ∨ (∃ v i d, c.sys = .capset v i d) ∨
        ∃ path argv, c.sys = .execv path argv := by
  have hrun := run_of_loop_done K opts rest hloop
  generalize (assemble K opts Proc.init).proc = q at hroot hrun ⊢
  have htr : (run K opts rest).2.trace = q.trace ++ checked K q.trace.length
      (finalizeCalls ++ handoffCalls q.child_dir q.binary rest) := by
    rw [hrun, finish_pair_trace, finish_calls K rest q hroot]
  rw [checked_append] at htr
  refine ⟨MS_RDONLY ||| MS_NOSUID ||| MS_REMOUNT ||| MS_NOATIME ||| MS_BIND ||| MS_RDONLY,
    if ∀ c ∈ checked K q.trace.length finalizeCalls, 0 ≤ c.res then
      checked K (q.trace.length + finalizeCalls.length)
        (handoffCalls q.child_dir q.binary rest)
    else [], ?_, by decide, ?_, ?_, ?_, ?_⟩
  · rw [htr]
    show _ = q.trace ++ checked K q.trace.length finalizeCalls ++ _
    split_ifs <;> simp
  · rintro ⟨c, hc, hneg⟩
    have hnot : ¬ ∀ c ∈ checked K q.trace.length finalizeCalls, 0 ≤ c.res := by
      intro hall
      have := hall c hc
      omega
    refine ⟨by rw [if_neg hnot], ?_⟩
    have hout : (finish K rest q).outcome ≠ none := by
      rw [Ne, finish_outcome K rest q hroot, checked_append, if_neg hnot]
      exact hnot
    rw [hrun]
    cases hfin : finish K rest q with
    | cont u z => rw [hfin] at hout; simp at hout
    | halt o z =>
      exact halt_status (finish K rest q) (finish_fatal K rest q) o (by rw [hfin]; rfl)
  · intro c hc hneg
    exact checked_neg_last K q.trace.length finalizeCalls c hc hneg
  · intro hall
    exact checked_map_of_ok K q.trace.length finalizeCalls hall
  · intro c hc
    split_ifs at hc with hall
    · have := mem_checked hc
      cases hd : q.child_dir <;> rw [hd] at this <;>
        simp [handoffCalls, capsetCall] at this <;> aesop
    · simp at hc

/-- C8 at the options `-s /srv/sbx` with a kernel that fails no call. -/
theorem finalizer_sequence_witness :
    (assemble (Kernel.allOk 1000 1000 S_IFDIR) [.s "/srv/sbx"] Proc.init).outcome = none ∧
    (assemble (Kernel.allOk 1000 1000 S_IFDIR) [.s "/srv/sbx"] Proc.init).proc.root_set = true ∧
    ∃ flags tail,
      (run (Kernel.allOk 1000 1000 S_IFDIR) [.s "/srv/sbx"] ["/bin/sh"]).2.trace =
        (assemble (Kernel.allOk 1000 1000 S_IFDIR) [.s "/srv/sbx"] Proc.init).proc.trace ++
          checked (Kernel.allOk 1000 1000 S_IFDIR)
            (assemble (Kernel.allOk 1000 1000 S_IFDIR) [.s "/srv/sbx"] Proc.init).proc.trace.length
            [.mkdir ".oldroot" 0o755, .pivot_root "." ".oldroot",
             .umount2 ".oldroot" MNT_DETACH, .rmdir ".oldroot",
             .mount "/" "/" none flags none] ++ tail := by
  refine ⟨by decide, by decide, ?_⟩
  obtain ⟨flags, tail, h, _⟩ := finalizer_sequence (Kernel.allOk 1000 1000 S_IFDIR)
    [.s "/srv/sbx"] ["/bin/sh"] (by decide) (by decide)
  exact ⟨flags, tail, h⟩

/-- C9, the claim as stated fails: with the options `-s /a -s /b` and no
failing call the run is not rejected; it issues `pivot_root` and ends in
`execv`. -/
theorem two_roots_counterexample :
    (run (Kernel.allOk 1000 1000 S_IFDIR) [.s "/a", .s "/b"] ["/bin/sh"]).1 = .exec ∧
    Syscall.pivot_root "." ".oldroot" ∈
      calls (Kernel.allOk 1000 1000 S_IFDIR) [.s "/a", .s "/b"] ["/bin/sh"] ∧
    Syscall.execv (some "/bin/sh") ["/bin/sh"] ∈
      calls (Kernel.allOk 1000 1000 S_IFDIR) [.s "/a", .s "/b"] ["/bin/sh"] := by
  decide

/-- C9, amended: one `-s` or more are accepted. For every list of well-formed
options that contains at least one `-s`, and every kernel that fails no call,
the run is not rejected: it issues all five calls of the root pivot,
`pivot_root` among them, and ends in `execv`. -/
theorem some_root_is_enough (K : Kernel) (opts : List Opt) (rest : List String)
    (hK : ∀ n s, 0 ≤ K.ret n s) (hwf : ∀ a ∈ opts, a.wellFormed = true)
    (hs : ∃ path, Opt.s path ∈ opts) :
    (run K opts rest).1 = .exec ∧
    (∀ s ∈ finalizeCalls, s ∈ calls K opts rest) ∧
    Syscall.pivot_root "." ".oldroot" ∈ calls K opts rest ∧
    ∃ bin, Syscall.execv bin rest ∈ calls K opts rest := by
  have hdone := runOpts_complete K K.uid K.gid opts (afterUnshare K) hK hwf
  have hany : opts.any Opt.isRoot = true := by
    obtain ⟨path, hp⟩ := hs
    exact List.any_eq_true.mpr ⟨_, hp, rfl⟩
  rcases run_cases K opts rest with ⟨hu, hr⟩ | ⟨hu, o, q, hl, hr⟩ | ⟨hu, q, hl, hroot, hr⟩ |
    ⟨hu, q, hl, hroot, hr⟩
  · have := hK 2 (.unshare unshare_flags)
    omega
  · rw [hl] at hdone; simp at hdone
  · have := (root_set_after_loop K opts q hl).1
    rw [hany, hroot] at this
    exact absurd this (by decide)
  · have hall : ∀ c ∈ checked K q.trace.length
        (finalizeCalls ++ handoffCalls q.child_dir q.binary rest), 0 ≤ c.res := by
      intro c hc
      have hres : ∀ (n : Nat) (l : List Syscall), ∀ c ∈ checked K n l, 0 ≤ c.res := by
        intro n l
        induction l generalizing n with
        | nil => intro c hc; simp [checked] at hc
        | cons s l ih =>
          intro c hc
          simp only [checked, List.mem_cons] at hc
          rcases hc with rfl | hc
          · exact hK n s
          · split_ifs at hc
            · exact ih _ c hc
            · simp at hc
      exact hres _ _ c hc
    have hout := (finish_outcome K rest q hroot).mpr hall
    have hexec : (run K opts rest).1 = .exec := by
      rw [hr]
      cases hfin : finish K rest q with
      | cont u z => rfl
      | halt o z => rw [hfin] at hout; simp at hout
    have hcalls : calls K opts rest =
        q.trace.map Call.sys ++ (finalizeCalls ++ handoffCalls q.child_dir q.binary rest) := by
      simp only [calls]
      rw [hr, finish_pair_trace, finish_calls K rest q hroot, List.map_append,
        checked_map_of_ok K _ _ hall]
    refine ⟨hexec, ?_, ?_, ?_⟩
    · intro s hs
      rw [hcalls]
      exact List.mem_append_right _ (List.mem_append_left _ hs)
    · rw [hcalls]
      exact List.mem_append_right _ (List.mem_append_left _ (by simp [finalizeCalls]))
    · refine ⟨(match q.binary with
        | none => rest.head?
        | some b => some b), ?_⟩
      rw [hcalls]
      refine List.mem_append_right _ (List.mem_append_right _ ?_)
      simp [handoffCalls]

/-- C9, amended, at the options `-s /a -s /b` with a kernel that fails no call. -/
theorem some_root_is_enough_witness :
    (∀ n s, 0 ≤ (Kernel.allOk 1000 1000 S_IFDIR).ret n s) ∧
    (∀ a ∈ [Opt.s "/a", Opt.s "/b"], a.wellFormed = true) ∧
    (∃ path, Opt.s path ∈ [Opt.s "/a", Opt.s "/b"]) ∧
    (run (Kernel.allOk 1000 1000 S_IFDIR) [.s "/a", .s "/b"] ["/bin/sh"]).1 = .exec ∧
    Syscall.pivot_root "." ".oldroot" ∈
      calls (Kernel.allOk 1000 1000 S_IFDIR) [.s "/a", .s "/b"] ["/bin/sh"] :=
  ⟨fun _ _ => le_refl _, by decide, ⟨"/a", by simp⟩,
   (some_root_is_enough (Kernel.allOk 1000 1000 S_IFDIR) [.s "/a", .s "/b"] ["/bin/sh"]
      (fun _ _ => le_refl _) (by decide) ⟨"/a", by simp⟩).1,
   (some_root_is_enough (Kernel.allOk 1000 1000 S_IFDIR) [.s "/a", .s "/b"] ["/bin/sh"]
      (fun _ _ => le_refl _) (by decide) ⟨"/a", by simp⟩).2.2.1⟩

/-- C10, the claim as stated fails. With the options `-s /srv/sbx -d /a -d /b`
and no failing call the run is successful and `chdir("/a")` is never issued:
the second `-d` replaced the first. With the options `-s /srv/sbx -d /srv/sbx`
the run is successful and `chdir("/srv/sbx")` is issued twice, once by `-s`
before the root pivot and once after it. -/
theorem working_directory_counterexample :
    (run (Kernel.allOk 1000 1000 S_IFDIR)
        [.s "/srv/sbx", .d "/a", .d "/b"] ["/bin/sh"]).1 = .exec ∧
    Syscall.chdir "/a" ∉
      calls (Kernel.allOk 1000 1000 S_IFDIR) [.s "/srv/sbx", .d "/a", .d "/b"] ["/bin/sh"] ∧
    (run (Kernel.allOk 1000 1000 S_IFDIR)
        [.s "/srv/sbx", .d "/srv/sbx"] ["/bin/sh"]).1 = .exec ∧
    (calls (Kernel.allOk 1000 1000 S_IFDIR)
        [.s "/srv/sbx", .d "/srv/sbx"] ["/bin/sh"]).count (.chdir "/srv/sbx") = 2 := by
  decide

/-- C10, amended: a `-d path` action issues no call at its position, it only
records `path` in `child_dir`, so that a later `-d` replaces an earlier one. In
every successful run the calls after the option loop are the five calls of the
root pivot, then `chdir(path)` exactly when `path` is the argument of the last
`-d` of the list (no `chdir` when the list has no `-d`), then `capset`, then
`execv`, all of them successful. A `chdir` issued during the option loop is that
of a `-s` action. -/
theorem working_directory_after_pivot (K : Kernel) (opts : List Opt) (rest : List String) :
    (∀ uid gid path p,
      step K uid gid (.d path) p = .cont () { p with child_dir := some path }) ∧
    ((run K opts rest).1 = .exec →
      ∃ fin bin,
        (run K opts rest).2.trace = (assemble K opts Proc.init).proc.trace ++ fin ∧
        fin.map Call.sys =
          finalizeCalls ++
          (match childDirAfter opts none with
           | some dir => [Syscall.chdir dir]
           | none => []) ++
          [capsetCall, .execv bin rest] ∧
        (∀ c ∈ fin, 0 ≤ c.res) ∧
        ∀ c ∈ (assemble K opts Proc.init).proc.trace, ∀ dir, c.sys = .chdir dir →
          Opt.s dir ∈ opts) ∧
    (∀ l1 l2 path, opts = l1 ++ .d path :: l2 → (∀ x, Opt.d x ∉ l2) →
      childDirAfter opts none = some path) ∧
    ((∀ x, Opt.d x ∉ opts) → childDirAfter opts none = none) := by
  refine ⟨fun uid gid path p => rfl, ?_, ?_, ?_⟩
  · intro hexec
    obtain ⟨q, hasm, hl, hroot, htr, hok⟩ := run_exec K opts rest hexec
    have hcd := (root_set_after_loop K opts q hl).2
    rw [hasm]
    simp only [proc_cont]
    refine ⟨checked K q.trace.length
        (finalizeCalls ++ handoffCalls q.child_dir q.binary rest),
      (match q.binary with
        | none => rest.head?
        | some b => some b), htr, ?_, hok, ?_⟩
    · rw [checked_map_of_ok K _ _ hok, hcd]
      simp only [handoffCalls, List.append_assoc]
    · intro c hc dir hdir
      obtain ⟨ext, hext, hmem⟩ := runOpts_calls_mem K K.uid K.gid opts (afterUnshare K)
      rw [hl] at hext
      simp only [proc_cont] at hext
      rw [hext] at hc
      rcases List.mem_append.mp hc with h | h
      · rw [afterUnshare_trace] at h
        simp only [List.mem_cons, List.mem_singleton, List.not_mem_nil, or_false] at h
        rcases h with rfl | rfl | rfl <;> simp at hdir
      · obtain ⟨a, ha, n, hn⟩ := hmem c h
        rw [← chdir_of_action K K.uid K.gid n a c dir hn hdir]
        exact ha
  · intro l1 l2 path hopts hno
    rw [hopts]
    exact childDirAfter_last l1 l2 path none hno
  · intro hno
    exact childDirAfter_of_no_d opts none hno

/-- C10, amended, at the options `-s /srv/sbx -d /a -d /b` with a kernel that
fails no call: the only `chdir` after the loop is `chdir("/b")`. -/
theorem working_directory_after_pivot_witness :
    (run (Kernel.allOk 1000 1000 S_IFDIR)
        [.s "/srv/sbx", .d "/a", .d "/b"] ["/bin/sh"]).1 = .exec ∧
    ∃ fin bin,
      (run (Kernel.allOk 1000 1000 S_IFDIR)
          [.s "/srv/sbx", .d "/a", .d "/b"] ["/bin/sh"]).2.trace =
        (assemble (Kernel.allOk 1000 1000 S_IFDIR)
          [.s "/srv/sbx", .d "/a", .d "/b"] Proc.init).proc.trace ++ fin ∧
      fin.map Call.sys =
        finalizeCalls ++ [Syscall.chdir "/b"] ++ [capsetCall, .execv bin ["/bin/sh"]] := by
  refine ⟨by decide, ?_⟩
  obtain ⟨fin, bin, h1, h2, _⟩ :=
    (working_directory_after_pivot (Kernel.allOk 1000 1000 S_IFDIR)
      [.s "/srv/sbx", .d "/a", .d "/b"] ["/bin/sh"]).2.1 (by decide)
  exact ⟨fin, bin, h1, h2⟩

end Mkbox
